import Mathlib

/-!
Verification development for the declarative form runtime documented in this
repository (Form Schema DSL, conditional logic, master data strategy) and for
the AI form helper code that ships with the documentation site.

The runtime engine itself is documented but not shipped as executable code, so
its model below is built from the specification text (each such definition says
so in its doc comment).  The AI form helper (`extractSchemaFromText`, the
V1 schema types and templates) is real TypeScript under the repository and is
embedded directly from that source.

The file is organised as definitions first, theorems second.
-/

set_option maxHeartbeats 1000000

/-! ## V1 form-schema types and templates (from the AI form helper source)

The TypeScript source defines `V1FormSchema` / `V1FieldSchema` with
`accessMatrix.visibility?: 'VISIBLE' | 'INVISIBLE'` both at field level and
inside predicate payloads, and ships three templates (`BLANK_TEMPLATE`,
`BASIC_TEMPLATE`, `ADVANCED_TEMPLATE`). -/

/-- The visibility union type of the V1 interface: exactly the two string
literals 'VISIBLE' and 'INVISIBLE' are representable. -/
inductive V1Visibility where
  | VISIBLE
  | INVISIBLE
deriving DecidableEq, Repr

/-- The string literal a `V1Visibility` value denotes in the TypeScript union. -/
def V1Visibility.toLiteral : V1Visibility → String
  | .VISIBLE => "VISIBLE"
  | .INVISIBLE => "INVISIBLE"

/-- The `accessMatrix` object of the V1 interface (all properties optional). -/
structure V1AccessMatrix where
  mandatory : Option Bool := none
  readOnly : Option Bool := none
  visibility : Option V1Visibility := none
deriving DecidableEq, Repr

/-- One entry of the V1 `enum` array. -/
structure V1EnumEntry where
  const : String
  title : String
deriving DecidableEq, Repr

/-- A predicate of the V1 interface (only the shape; `accessMatrix` is the
payload whose visibility values C10 is about). -/
structure V1Predicate where
  type : String
  condition : Option String := none
  accessMatrix : Option V1AccessMatrix := none
  expression : Option String := none
deriving DecidableEq, Repr

/-- A field of the V1 interface (the properties the claims need). -/
structure V1FieldSchema where
  key : String
  title : String
  type : String
  description : String
  accessMatrix : Option V1AccessMatrix := none
  enum : List V1EnumEntry := []
  predicates : List V1Predicate := []
  placeholder : Option String := none
deriving DecidableEq, Repr

/-- The `schema` object inside a V1 form schema. -/
structure V1SchemaBody where
  type : String
  description : String
  properties : List (String × V1FieldSchema)
  order : List String
  required : List String := []
  searchableKeys : List String := []
  enableViewModeWebLayout : Bool := false
  enableWebLayout : Bool := false
deriving DecidableEq, Repr

/-- A V1 form schema (the properties the claims need). -/
structure V1FormSchema where
  name : String
  groupId : String
  companyId : String
  schema : V1SchemaBody
deriving DecidableEq, Repr

/-- The BLANK_TEMPLATE constant from the templates source. -/
def BLANK_TEMPLATE : V1FormSchema :=
  { name := "New Form", groupId := "", companyId := ""
    schema :=
      { type := "object", description := "form", properties := [], order := [] } }

/-- The BASIC_TEMPLATE constant from the templates source. -/
def BASIC_TEMPLATE : V1FormSchema :=
  { name := "Basic Form", groupId := "", companyId := ""
    schema :=
      { type := "object", description := "form"
        properties :=
          [ ("name",
             { key := "name", title := "Name", type := "string"
               description := "textfield"
               accessMatrix := some
                 { mandatory := some true, readOnly := some false
                   visibility := some .VISIBLE } }),
            ("email",
             { key := "email", title := "Email", type := "string"
               description := "textfield"
               placeholder := some "Enter email address"
               accessMatrix := some
                 { mandatory := some false, readOnly := some false
                   visibility := some .VISIBLE } }),
            ("phone",
             { key := "phone", title := "Phone", type := "string"
               description := "phone"
               accessMatrix := some
                 { mandatory := some false, readOnly := some false
                   visibility := some .VISIBLE } }) ]
        order := ["name", "email", "phone"]
        required := ["name"]
        searchableKeys := ["name", "email"] } }

/-- The ADVANCED_TEMPLATE constant from the templates source. -/
def ADVANCED_TEMPLATE : V1FormSchema :=
  { name := "Advanced Form with Conditions", groupId := "", companyId := ""
    schema :=
      { type := "object", description := "form"
        properties :=
          [ ("section_personal",
             { key := "section_personal", title := "Personal Information"
               type := "null", description := "section"
               accessMatrix := some
                 { mandatory := some false, readOnly := some false
                   visibility := some .VISIBLE } }),
            ("name",
             { key := "name", title := "Full Name", type := "string"
               description := "textfield"
               accessMatrix := some
                 { mandatory := some true, readOnly := some false
                   visibility := some .VISIBLE } }),
            ("status",
             { key := "status", title := "Status", type := "string"
               description := "string_list"
               enum :=
                 [ { const := "active", title := "Active" },
                   { const := "inactive", title := "Inactive" },
                   { const := "pending", title := "Pending" } ]
               accessMatrix := some
                 { mandatory := some true, readOnly := some false
                   visibility := some .VISIBLE } }),
            ("reason",
             { key := "reason", title := "Reason for Inactivity"
               type := "string", description := "textfield"
               accessMatrix := some
                 { mandatory := some false, readOnly := some false
                   visibility := some .INVISIBLE }
               predicates :=
                 [ { type := "APPLY_ACCESS_MATRIX"
                     condition := some "$\x7bstatus\x7d == \"inactive\""
                     accessMatrix := some
                       { mandatory := some true, readOnly := some false
                         visibility := some .VISIBLE } } ] }),
            ("section_location",
             { key := "section_location", title := "Location Details"
               type := "null", description := "section"
               accessMatrix := some
                 { mandatory := some false, readOnly := some false
                   visibility := some .VISIBLE } }),
            ("location",
             { key := "location", title := "Location", type := "object"
               description := "location"
               accessMatrix := some
                 { mandatory := some false, readOnly := some false
                   visibility := some .VISIBLE } }),
            ("photos",
             { key := "photos", title := "Photos", type := "array"
               description := "multimedia"
               accessMatrix := some
                 { mandatory := some false, readOnly := some false
                   visibility := some .VISIBLE } }) ]
        order :=
          ["section_personal", "name", "status", "reason",
           "section_location", "location", "photos"]
        required := ["name", "status"]
        searchableKeys := ["name", "status"] } }

/-- The three shipped templates (the TEMPLATES record of the source). -/
def TEMPLATES : List (String × V1FormSchema) :=
  [ ("blank", BLANK_TEMPLATE),
    ("basic", BASIC_TEMPLATE),
    ("advanced", ADVANCED_TEMPLATE) ]

/-- All visibility literals occurring in a field: its own access matrix and
every predicate payload access matrix. -/
def V1FieldSchema.visibilityLiterals (f : V1FieldSchema) : List String :=
  (match f.accessMatrix with
   | some m => (m.visibility.map V1Visibility.toLiteral).toList
   | none => []) ++
  f.predicates.flatMap (fun p =>
    match p.accessMatrix with
    | some m => (m.visibility.map V1Visibility.toLiteral).toList
    | none => [])

/-- All visibility literals occurring anywhere in a form schema. -/
def V1FormSchema.visibilityLiterals (s : V1FormSchema) : List String :=
  s.schema.properties.flatMap (fun kv => kv.2.visibilityLiterals)

/-! ## Runtime engine model

Modelled from the spec: the repository documents the form runtime (conditional
logic, visibility cascading, master data strategy) without shipping its
executable code, so the definitions below are built from the specification's
data model (fields with an access state, an answer store keyed by address,
predicates with a condition expression and an action) and from the documented
action semantics. -/

/-- Modelled from the spec: the three visibility states of a field's access
state (VISIBLE, INVISIBLE, GONE). -/
inductive Visibility where
  | VISIBLE
  | INVISIBLE
  | GONE
deriving DecidableEq, Repr

/-- Modelled from the spec: a field's access state (visibility, mandatory,
readOnly). -/
structure AccessState where
  visibility : Visibility
  mandatory : Bool
  readOnly : Bool
deriving DecidableEq, Repr

/-- Modelled from the spec: the partial access-matrix payload of an
APPLY_ACCESS_MATRIX predicate; every property is optional. -/
structure AccessMatrixPatch where
  visibility : Option Visibility := none
  mandatory : Option Bool := none
  readOnly : Option Bool := none
deriving DecidableEq, Repr

/-- Modelled from the spec: APPLY_ACCESS_MATRIX merges the predicate's partial
access-matrix object into the field's current access state
property-by-property; a property not present in the payload retains its prior
value (Option A of the documentation, chosen for backward compatibility). -/
def applyAccessMatrix (prior : AccessState) (patch : AccessMatrixPatch) : AccessState :=
  { visibility := patch.visibility.getD prior.visibility
    mandatory := patch.mandatory.getD prior.mandatory
    readOnly := patch.readOnly.getD prior.readOnly }

/-- Modelled from the spec: a runtime value of the answer store (string,
number, boolean, null); numbers are modelled as integers. -/
inductive Value where
  | vnull
  | vbool (b : Bool)
  | vnum (n : Int)
  | vstr (s : String)
deriving DecidableEq, Repr

/-- Modelled from the spec: an address is a path of keys resolving a field
relative to the answer root. -/
abbrev Address := List String

/-- Modelled from the spec: the answer store is a map of current field values
keyed by address; a field with no entry has no value (absent, distinct from a
literal null). -/
def AnswerStore := List (Address × Value)

/-- Look up the value stored at an address (none when the value is absent). -/
def AnswerStore.get (s : AnswerStore) : Address → Option Value
  | a => match s with
    | [] => none
    | (b, v) :: rest => if b = a then some v else AnswerStore.get rest a

/-- Write a value at an address, replacing any prior entry. -/
def AnswerStore.set (s : AnswerStore) (a : Address) (v : Value) : AnswerStore :=
  (a, v) :: s.filter (fun e => decide (e.1 ≠ a))

/-- Remove the entry at an address (the key becomes absent). -/
def AnswerStore.remove (s : AnswerStore) (a : Address) : AnswerStore :=
  s.filter (fun e => decide (e.1 ≠ a))

/-- Modelled from the spec: the evaluation errors of the restricted expression
grammar (unresolved reference, type mismatch). -/
inductive EvalError where
  | UnresolvedReferenceError (a : Address)
  | TypeMismatchError
deriving DecidableEq, Repr

/-- Modelled from the spec: the restricted rule grammar — field references,
literals, arithmetic, comparison, logical operators and a string-contains
built-in; no field write, no loops, no arbitrary functions. -/
inductive Expr where
  | lit (v : Value)
  | ref (a : Address)
  | add (e₁ e₂ : Expr)
  | sub (e₁ e₂ : Expr)
  | mul (e₁ e₂ : Expr)
  | eqE (e₁ e₂ : Expr)
  | neE (e₁ e₂ : Expr)
  | ltE (e₁ e₂ : Expr)
  | andE (e₁ e₂ : Expr)
  | orE (e₁ e₂ : Expr)
  | notE (e : Expr)
  | containsE (e₁ e₂ : Expr)
deriving DecidableEq, Repr

/-- Coerce a value to a boolean for the logical operators: null coerces to
false, a boolean is itself, other kinds are a type mismatch. -/
def Value.asBool : Value → Except EvalError Bool
  | .vbool b => .ok b
  | .vnull => .ok false
  | _ => .error .TypeMismatchError

/-- Modelled from the spec: evaluate an expression against an answer
snapshot — a pure, total function.  A reference to an absent address yields
null; an operator that requires a non-null operand fails with
UnresolvedReferenceError when handed null, and with TypeMismatchError across
incompatible kinds.  Addition concatenates strings, as the documented CALC
formulas do. -/
def eval (ans : AnswerStore) : Expr → Except EvalError Value
  | .lit v => .ok v
  | .ref a =>
    match ans.get a with
    | some v => .ok v
    | none => .ok .vnull
  | .add e₁ e₂ => do
    match (← eval ans e₁), (← eval ans e₂) with
    | .vnum m, .vnum n => .ok (.vnum (m + n))
    | .vstr s₁, .vstr s₂ => .ok (.vstr (s₁ ++ s₂))
    | .vnull, _ => .error (.UnresolvedReferenceError [])
    | _, .vnull => .error (.UnresolvedReferenceError [])
    | _, _ => .error .TypeMismatchError
  | .sub e₁ e₂ => do
    match (← eval ans e₁), (← eval ans e₂) with
    | .vnum m, .vnum n => .ok (.vnum (m - n))
    | .vnull, _ => .error (.UnresolvedReferenceError [])
    | _, .vnull => .error (.UnresolvedReferenceError [])
    | _, _ => .error .TypeMismatchError
  | .mul e₁ e₂ => do
    match (← eval ans e₁), (← eval ans e₂) with
    | .vnum m, .vnum n => .ok (.vnum (m * n))
    | .vnull, _ => .error (.UnresolvedReferenceError [])
    | _, .vnull => .error (.UnresolvedReferenceError [])
    | _, _ => .error .TypeMismatchError
  | .eqE e₁ e₂ => do
    let v₁ ← eval ans e₁
    let v₂ ← eval ans e₂
    .ok (.vbool (v₁ = v₂))
  | .neE e₁ e₂ => do
    let v₁ ← eval ans e₁
    let v₂ ← eval ans e₂
    .ok (.vbool (v₁ ≠ v₂))
  | .ltE e₁ e₂ => do
    match (← eval ans e₁), (← eval ans e₂) with
    | .vnum m, .vnum n => .ok (.vbool (m < n))
    | .vnull, _ => .error (.UnresolvedReferenceError [])
    | _, .vnull => .error (.UnresolvedReferenceError [])
    | _, _ => .error .TypeMismatchError
  | .andE e₁ e₂ => do
    let b₁ ← (← eval ans e₁).asBool
    let b₂ ← (← eval ans e₂).asBool
    .ok (.vbool (b₁ && b₂))
  | .orE e₁ e₂ => do
    let b₁ ← (← eval ans e₁).asBool
    let b₂ ← (← eval ans e₂).asBool
    .ok (.vbool (b₁ || b₂))
  | .notE e => do
    let b ← (← eval ans e).asBool
    .ok (.vbool (!b))
  | .containsE e₁ e₂ => do
    match (← eval ans e₁), (← eval ans e₂) with
    | .vstr s₁, .vstr s₂ => .ok (.vbool ((s₁.splitOn s₂).length > 1 || s₂ = ""))
    | _, _ => .error .TypeMismatchError

/-- Modelled from the spec: a condition expression must return a boolean;
null coerces to condition-false, any other non-boolean kind is a type
mismatch.  A missing condition means the predicate always fires. -/
def evalCondition (ans : AnswerStore) : Option Expr → Except EvalError Bool
  | none => .ok true
  | some e => do (← eval ans e).asBool

/-- Modelled from the spec: the predicate actions the claims are about.  CALC
carries its formula, APPLY_ACCESS_MATRIX its partial access-matrix payload,
COPY its source address, VALIDATE its error message. -/
inductive PredAction where
  | CALC (formula : Expr)
  | APPLY_ACCESS_MATRIX (patch : AccessMatrixPatch)
  | COPY (src : Address)
  | VALIDATE (msg : String)
deriving DecidableEq, Repr

/-- Modelled from the spec: a predicate is an optional condition expression
plus an action. -/
structure Predicate where
  condition : Option Expr := none
  action : PredAction
deriving DecidableEq, Repr

/-- Modelled from the spec: the state a propagation pass threads — the answer
store, the per-field access states, the per-field validation errors, and the
diagnostics accumulated so far in this pass. -/
structure EngineState where
  answers : AnswerStore
  access : List (Address × AccessState)
  validationErrors : List (Address × String)
  diagnostics : List (Address × EvalError)

/-- The access state recorded for a field, defaulting to visible, optional,
editable when none was recorded. -/
def EngineState.accessOf (s : EngineState) (a : Address) : AccessState :=
  match s.access.find? (fun e => e.1 = a) with
  | some e => e.2
  | none => { visibility := .VISIBLE, mandatory := false, readOnly := false }

/-- Record a field's access state. -/
def EngineState.setAccess (s : EngineState) (a : Address) (st : AccessState) :
    EngineState :=
  { s with access := (a, st) :: s.access.filter (fun e => decide (e.1 ≠ a)) }

/-- Modelled from the spec: execute a fired predicate's action on a field.
CALC evaluates the formula: a null result removes the field's value from the
answer store (absent, not a literal null), any other result replaces the
field's value wholesale; an evaluation error skips the action and accumulates
a diagnostic.  APPLY_ACCESS_MATRIX merges its partial payload into the field's
current access state.  COPY copies the named field's current value.  VALIDATE
attaches the error message. -/
def execAction (s : EngineState) (field : Address) : PredAction → EngineState
  | .CALC formula =>
    match eval s.answers formula with
    | .error e => { s with diagnostics := s.diagnostics ++ [(field, e)] }
    | .ok .vnull => { s with answers := s.answers.remove field }
    | .ok v => { s with answers := s.answers.set field v }
  | .APPLY_ACCESS_MATRIX patch =>
    s.setAccess field (applyAccessMatrix (s.accessOf field) patch)
  | .COPY src =>
    match s.answers.get src with
    | some v => { s with answers := s.answers.set field v }
    | none => { s with answers := s.answers.remove field }
  | .VALIDATE msg =>
    { s with validationErrors :=
        (field, msg) :: s.validationErrors.filter (fun e => decide (e.1 ≠ field)) }

/-- Modelled from the spec: run one predicate of a field.  An EvaluationError
raised by the condition is recovered locally: the predicate is treated as
condition-false (action skipped) and a diagnostic is accumulated; a true
condition executes the action; a false condition does nothing. -/
def runPredicate (s : EngineState) (field : Address) (p : Predicate) :
    EngineState :=
  match evalCondition s.answers p.condition with
  | .error e => { s with diagnostics := s.diagnostics ++ [(field, e)] }
  | .ok false => s
  | .ok true => execAction s field p.action

/-- Modelled from the spec: a propagation pass runs every affected field's
predicate in order, threading the state; it is a total fold, so it never
aborts because one field's predicate failed. -/
def runPass (s : EngineState) (work : List (Address × Predicate)) : EngineState :=
  work.foldl (fun acc fp => runPredicate acc fp.1 fp.2) s

/-- A concrete engine state for the witnesses: qty = 3, price = 50, and a
stale total = 999 that the CALC examples overwrite or clear. -/
def demoState : EngineState :=
  { answers := [(["qty"], .vnum 3), (["price"], .vnum 50), (["total"], .vnum 999)]
    access := []
    validationErrors := []
    diagnostics := [] }

/-- A concrete prior access state for the C4 witness: an invisible, optional,
editable field. -/
def demoPriorState : EngineState :=
  { answers := []
    access := [(["reason"],
      { visibility := .INVISIBLE, mandatory := false, readOnly := false })]
    validationErrors := []
    diagnostics := [] }

/-- A predicate whose condition is a number, not a boolean: evaluating it
raises TypeMismatchError. -/
def demoBadPredicate : Predicate :=
  { condition := some (.lit (.vnum 1))
    action := .CALC (.lit (.vstr "never")) }

/-- A well-formed CALC predicate used after the failing one in the witness
pass. -/
def demoGoodPredicate : Predicate :=
  { condition := none, action := .CALC (.lit (.vnum 2)) }

/-- An empty engine state. -/
def emptyState : EngineState :=
  { answers := [], access := [], validationErrors := [], diagnostics := [] }

/-! ## Cascading option-filter model (for the dropdown claims) -/

/-- Generic association-list lookup with a hand-rolled recursion (used by the
cascade and master-data models). -/
def lookupEntry [DecidableEq κ] : List (κ × α) → κ → Option α
  | [], _ => none
  | (b, v) :: rest, k => if b = k then some v else lookupEntry rest k

/-- Write an entry, replacing any prior entry at the same key. -/
def setEntry [DecidableEq κ] (m : List (κ × α)) (k : κ) (v : α) : List (κ × α) :=
  (k, v) :: m.filter (fun e => decide (e.1 ≠ k))

/-- Remove the entry at a key. -/
def removeEntry [DecidableEq κ] (m : List (κ × α)) (k : κ) : List (κ × α) :=
  m.filter (fun e => decide (e.1 ≠ k))

/-- Modelled from the spec: a master dataset row, a map from column name to
cell value. -/
abbrev Row := List (String × String)

/-- Modelled from the spec: the named configuration switch for OPTION_FILTER
when the controlling parent has no value (an open question of the
documentation, to be implemented behind a switch rather than hard-coded):
show no options, show the full dataset, or keep the field's prior option
set. -/
inductive EmptyParentBehavior where
  | showNoOptions
  | showAllOptions
  | keepPriorOptions
deriving DecidableEq, Repr

/-- Modelled from the spec: the engine configuration carrying the named
switches. -/
structure EngineConfig where
  emptyParentBehavior : EmptyParentBehavior
deriving DecidableEq, Repr

/-- Modelled from the spec: the default configuration — OPTION_FILTER on an
empty parent yields an empty option set (conservative V1 default). -/
def defaultEngineConfig : EngineConfig :=
  { emptyParentBehavior := .showNoOptions }

/-- Modelled from the spec: OPTION_FILTER recomputes a dependent field's
option set as the subset of its master dataset rows whose parent-linking
column equals the parent's current value; when the parent has no value the
named configuration switch selects the result. -/
def optionFilter (cfg : EngineConfig) (rows : List Row) (linkCol : String)
    (parentVal : Option String) (prior : List Row) : List Row :=
  match parentVal with
  | some v => rows.filter (fun r => lookupEntry r linkCol == some v)
  | none =>
    match cfg.emptyParentBehavior with
    | .showNoOptions => []
    | .showAllOptions => rows
    | .keepPriorOptions => prior

/-- Modelled from the spec: the cascade-relevant part of a field definition —
its key and, when it carries an OPTION_FILTER predicate, the controlling
parent field named by the predicate's actionConfig. -/
structure CascadeField where
  key : String
  optionFilterParent : Option String
deriving DecidableEq, Repr

/-- Modelled from the spec: a schema slice for the cascade model — the fields
and each field's declared dependentKeys. -/
structure CascadeSchema where
  fields : List CascadeField
  dependentKeys : List (String × List String)
deriving DecidableEq, Repr

/-- The declared dependent keys of a field (empty when none declared). -/
def CascadeSchema.dependentsOf (sch : CascadeSchema) (k : String) : List String :=
  (lookupEntry sch.dependentKeys k).getD []

/-- The definition of a field by key. -/
def CascadeSchema.fieldDef (sch : CascadeSchema) (k : String) :
    Option CascadeField :=
  sch.fields.find? (fun f => f.key = k)

/-- Modelled from the spec: the per-session dropdown state — current field
values and current option sets. -/
structure CascadeState where
  values : List (String × String)
  options : List (String × List Row)
deriving DecidableEq, Repr

/-- The current value of a field (none when absent). -/
def CascadeState.valueOf (s : CascadeState) (k : String) : Option String :=
  lookupEntry s.values k

/-- The current option set of a field (empty when never computed). -/
def CascadeState.optionsOf (s : CascadeState) (k : String) : List Row :=
  (lookupEntry s.options k).getD []

/-- Modelled from the spec: one step of the cascade fold — process one
declared dependent d of the edited parent k: when d carries an OPTION_FILTER
keyed on k, clear d's value (cascading clear) and recompute d's option set
for the parent's new value. -/
def cascadeStep (rows : List Row) (sch : CascadeSchema) (k v : String)
    (acc : CascadeState) (d : String) : CascadeState :=
  match sch.fieldDef d with
  | some fd =>
    if fd.optionFilterParent = some k then
      { values := removeEntry acc.values d
        options := setEntry acc.options d
          (optionFilter defaultEngineConfig rows k (some v) (acc.optionsOf d)) }
    else acc
  | none => acc

/-- Modelled from the spec: a user edit setting parent field k to value v —
write the value, then run the cascade over k's declared dependent keys. -/
def setParentValue (rows : List Row) (sch : CascadeSchema) (s : CascadeState)
    (k v : String) : CascadeState :=
  (sch.dependentsOf k).foldl (cascadeStep rows sch k v)
    { s with values := setEntry s.values k v }

/-- Scenario A's master dataset: states and their districts. -/
def locationMaster : List Row :=
  [ [("state", "Maharashtra"), ("district", "Mumbai")],
    [("state", "Maharashtra"), ("district", "Pune")],
    [("state", "Karnataka"), ("district", "Bengaluru")] ]

/-- Scenario A's schema slice: state declares district as dependent; district
carries an OPTION_FILTER keyed on state. -/
def scenarioASchema : CascadeSchema :=
  { fields :=
      [ { key := "state", optionFilterParent := none },
        { key := "district", optionFilterParent := some "state" } ]
    dependentKeys := [("state", ["district"])] }

/-! ## Master data manager model (fetch deduplication) -/

/-- Modelled from the spec and the documented MasterManager pseudocode: the
shared master-data state — resolved cache entries per cache key, the waiters
of the single in-flight fetch per cache key, the number of fetches sent to
the source, and the rows delivered to each requester.  A cache key encodes
(masterId, partitionFilter); requesters are numbered. -/
structure MasterManagerState where
  cache : List (String × List Row)
  inflight : List (String × List Nat)
  fetchCount : Nat
  results : List (Nat × List Row)
deriving DecidableEq, Repr

/-- Modelled from the spec: a resolve request by requester r for a cache key.
A valid cached entry answers immediately; an in-flight fetch for the same key
is joined (request deduplication — no second fetch is sent); otherwise a
single fetch is sent and registered as in-flight. -/
def MasterManagerState.request (s : MasterManagerState) (r : Nat)
    (key : String) : MasterManagerState :=
  match lookupEntry s.cache key with
  | some data => { s with results := setEntry s.results r data }
  | none =>
    match lookupEntry s.inflight key with
    | some ws => { s with inflight := setEntry s.inflight key (ws ++ [r]) }
    | none =>
      { s with inflight := setEntry s.inflight key [r]
               fetchCount := s.fetchCount + 1 }

/-- Modelled from the spec: completion of the in-flight fetch for a key — the
fetched rows are cached, delivered to every waiter of the shared fetch, and
the in-flight entry is cleared. -/
def MasterManagerState.completeFetch (s : MasterManagerState) (key : String)
    (data : List Row) : MasterManagerState :=
  match lookupEntry s.inflight key with
  | some ws =>
    { s with cache := setEntry s.cache key data
             inflight := removeEntry s.inflight key
             results := ws.foldl (fun acc r => setEntry acc r data) s.results }
  | none => s

/-- The empty master-manager state. -/
def emptyMasterManager : MasterManagerState :=
  { cache := [], inflight := [], fetchCount := 0, results := [] }

/-! ## Visibility gate state machine (for the gate invariant) -/

/-- Modelled from the spec: the visibility-relevant session state — each
field's recorded visibility (defaulting to VISIBLE) keyed by address, and the
answer store. -/
structure GateState where
  vis : List (Address × Visibility)
  ans : AnswerStore

/-- The visibility recorded for a field (VISIBLE when none recorded). -/
def GateState.visOf (s : GateState) (p : Address) : Visibility :=
  (lookupEntry s.vis p).getD .VISIBLE

/-- The proper ancestors of an address: its proper prefixes, shortest
first. -/
def strictAncestors (p : Address) : List Address :=
  (List.range p.length).map (fun i => p.take i)

/-- Whether some proper ancestor of the address has visibility GONE (the gate
above the field is closed). -/
def gateClosedAbove (s : GateState) (p : Address) : Bool :=
  (strictAncestors p).any (fun q => decide (s.visOf q = .GONE))

/-- Modelled from the spec: the effective visibility of a field — GONE
whenever any ancestor's visibility is GONE (the gate rule), the field's own
visibility otherwise (INVISIBLE does not cascade). -/
def effectiveVisibility (s : GateState) (p : Address) : Visibility :=
  if gateClosedAbove s p then .GONE else s.visOf p

/-- Remove the values of a field and of all its descendants (cascading
clear). -/
def clearSubtree (ans : AnswerStore) (p : Address) : AnswerStore :=
  ans.filter (fun e => !(p.isPrefixOf e.1))

/-- Modelled from the spec: the visibility-relevant session steps.  A write
(user edit or predicate effect) targets a field only when its effective
visibility is not GONE — a field behind a closed gate is not rendered and not
written.  Setting a field's visibility to GONE clears the values of the field
and of every descendant (cascading clear on gate close). -/
inductive GateStep : GateState → GateState → Prop where
  | write (s : GateState) (p : Address) (v : Value)
      (h : effectiveVisibility s p ≠ .GONE) :
      GateStep s { s with ans := s.ans.set p v }
  | clear (s : GateState) (p : Address) :
      GateStep s { s with ans := s.ans.remove p }
  | setVisibility (s : GateState) (p : Address) (w : Visibility) :
      GateStep s
        { vis := setEntry s.vis p w
          ans := if w = .GONE then clearSubtree s.ans p else s.ans }

/-- Modelled from the spec: the states reachable from a fresh session — the
answer store is created empty at form-open, then mutated by steps. -/
inductive GateReachable (vis₀ : List (Address × Visibility)) : GateState → Prop
  | init : GateReachable vis₀ { vis := vis₀, ans := [] }
  | step (s t : GateState) : GateReachable vis₀ s → GateStep s t →
      GateReachable vis₀ t

/-- The gate invariant: a field with a proper ancestor whose visibility is
GONE holds no value. -/
def GateInvariant (s : GateState) : Prop :=
  ∀ p q : Address, q.isPrefixOf p = true → q ≠ p → s.visOf q = .GONE →
    s.ans.get p = none

/-- The concrete reachable state of the C1 witness: a child edited, then its
section gated off. -/
def gateDemoState : GateState :=
  { vis := setEntry ([] : List (Address × Visibility)) ["sec"] .GONE
    ans := clearSubtree (AnswerStore.set [] ["sec", "child"] (.vstr "x")) ["sec"] }

/-! ## Dependency graph builder (build-time cycle detection) -/

/-- Modelled from the spec: the dependentKeys edges of a schema, as
(trigger, dependent) pairs. -/
abbrev DepEdges := List (String × String)

/-- The dependents a trigger's edges point to. -/
def edgeTargets (edges : DepEdges) (a : String) : List String :=
  (edges.filter (fun e => decide (e.1 = a))).map (fun e => e.2)

/-- All endpoints of the edges. -/
def allNodes (edges : DepEdges) : Finset String :=
  (edges.map Prod.fst).toFinset ∪ (edges.map Prod.snd).toFinset

/-- One expansion of a reach set: add the targets of every member. -/
def expandOnce (edges : DepEdges) (S : Finset String) : Finset String :=
  S ∪ S.biUnion (fun a => (edgeTargets edges a).toFinset)

/-- Iterated expansion of a reach set. -/
def reachIter (edges : DepEdges) : Nat → Finset String → Finset String
  | 0, S => S
  | k + 1, S => expandOnce edges (reachIter edges k S)

/-- The nodes reachable from v along at least one dependentKeys edge:
starting from v's direct targets, expand as many times as there are nodes,
which saturates the set. -/
def reachableFrom (edges : DepEdges) (v : String) : Finset String :=
  reachIter edges (allNodes edges).card (edgeTargets edges v).toFinset

/-- Modelled from the spec: the build-time traversal flagging any cycle among
dependentKeys edges — some trigger reaches itself. -/
def hasCyclicDependency (edges : DepEdges) : Bool :=
  (edges.map Prod.fst).any (fun v => decide (v ∈ reachableFrom edges v))

/-- Modelled from the spec: the fatal schema build errors (cyclic dependency,
duplicate key, dangling master reference). -/
inductive SchemaBuildError where
  | CyclicDependencyError
  | DuplicateKeyError
  | DanglingMasterReferenceError
deriving DecidableEq, Repr

/-- Modelled from the spec: build rejects a schema whose dependentKeys edges
contain a cycle with CyclicDependencyError at build time, before any session
starts; with acyclic edges it yields the dependency graph (no runtime loop
detection is relied on). -/
def buildDependencyGraph (edges : DepEdges) : Except SchemaBuildError DepEdges :=
  if hasCyclicDependency edges then .error .CyclicDependencyError else .ok edges

/-- One dependentKeys edge, as a relation. -/
def EdgeRel (edges : DepEdges) (a b : String) : Prop := (a, b) ∈ edges

/-- The schema contains a dependentKeys cycle: some node reaches itself
through at least one edge. -/
def HasCycle (edges : DepEdges) : Prop :=
  ∃ v, Relation.TransGen (EdgeRel edges) v v

/-! ## JSON model (for the AI chat panel's schema extraction)

The documentation site ships a real TypeScript function
`extractSchemaFromText` that matches fenced code blocks in a chat message,
parses them with `JSON.parse`, and re-serialises the parsed value with
`JSON.stringify(parsed, null, 2)`.  The definitions below embed that
function; JSON numbers carry the full literal grammar (sign, integer part,
fraction, exponent) and are modelled as exact decimals that overflow to a
signed infinity past the double range — the model keeps values the double
rounding would perturb exact, which does not affect value-level round-trips,
but it does keep the one number behaviour that breaks them: `JSON.parse`
reads an overflowing literal such as `1e999` as `Infinity`, and
`JSON.stringify` writes a non-finite number as `null`.  JSON whitespace is
the four characters space, tab, newline, carriage return, and `\uXXXX`
escapes are decoded to Unicode scalar values. -/

/-- A JavaScript number as `JSON.parse` produces it from a numeric literal:
a finite exact decimal `m * 10 ^ e`, or a signed infinity when the literal
overflows the double range.  The model overflows at magnitude `2 ^ 1024`
(the power bounding every finite double) instead of the round-to-nearest
boundary, and does not round finite values — deviations that leave every
value-level round-trip unchanged. -/
inductive JNumber where
  | fin (m : Int) (e : Int)
  | inf
  | neginf

/-- Whether a number is finite, i.e. serialisable as a numeral. -/
def JNumber.isFinite : JNumber → Bool
  | .fin _ _ => true
  | _ => false

/-- Move factors of ten from the mantissa into the exponent (fuelled; the
entry point passes the mantissa's magnitude, which bounds the number of
strippable factors). -/
def stripZeros : Nat → Int → Int → Int × Int
  | 0, m, e => (m, e)
  | f + 1, m, e =>
    if m % 10 = 0 ∧ m ≠ 0 then stripZeros f (m / 10) (e + 1) else (m, e)

/-- Whether `m * 10 ^ e` lies past the double range. -/
def overflowAt (m e : Int) : Bool :=
  if 0 ≤ e then 2 ^ 1024 ≤ m.natAbs * 10 ^ e.toNat
  else 2 ^ 1024 * 10 ^ (-e).toNat ≤ m.natAbs

/-- The canonical number of an exact decimal value: zero is `fin 0 0`, a
non-zero value strips trailing zeros from its mantissa, and a value past the
double range becomes a signed infinity. -/
def normNum (m e : Int) : JNumber :=
  if m = 0 then .fin 0 0
  else if overflowAt (stripZeros m.natAbs m e).1 (stripZeros m.natAbs m e).2
  then (if 0 < m then .inf else .neginf)
  else .fin (stripZeros m.natAbs m e).1 (stripZeros m.natAbs m e).2

/-- Canonical numbers: what `normNum` produces — a zero mantissa forces a
zero exponent, a non-zero mantissa carries no factor of ten, and a finite
number lies inside the double range. -/
def JNumCanon : JNumber → Prop
  | .fin m e =>
    (m = 0 → e = 0) ∧ (m ≠ 0 → ¬ (10 : Int) ∣ m) ∧ overflowAt m e = false
  | .inf => True
  | .neginf => True

/-- JSON values as the chat panel manipulates them. -/
inductive Json where
  | null
  | bool (b : Bool)
  | num (q : JNumber)
  | str (s : String)
  | arr (elems : List Json)
  | obj (members : List (String × Json))

/-- Well-formed JSON values: every object's keys are distinct and every
number is canonical.  `JSON.parse` only produces such values (a repeated key
keeps one binding, a numeral is read into its canonical value). -/
inductive JsonWF : Json → Prop where
  | null : JsonWF .null
  | bool (b : Bool) : JsonWF (.bool b)
  | num (q : JNumber) (hq : JNumCanon q) : JsonWF (.num q)
  | str (s : String) : JsonWF (.str s)
  | arr (xs : List Json) (h : ∀ x ∈ xs, JsonWF x) : JsonWF (.arr xs)
  | obj (ms : List (String × Json)) (hkeys : (ms.map Prod.fst).Nodup)
      (h : ∀ m ∈ ms, JsonWF m.2) : JsonWF (.obj ms)

/-- Values with no infinity anywhere: exactly those `JSON.stringify` writes
faithfully (it writes a non-finite number as `null`). -/
inductive AllFinite : Json → Prop where
  | null : AllFinite .null
  | bool (b : Bool) : AllFinite (.bool b)
  | num (m e : Int) : AllFinite (.num (.fin m e))
  | str (s : String) : AllFinite (.str s)
  | arr (xs : List Json) (h : ∀ x ∈ xs, AllFinite x) : AllFinite (.arr xs)
  | obj (ms : List (String × Json)) (h : ∀ m ∈ ms, AllFinite m.2) :
      AllFinite (.obj ms)

/-- The decimal digit character for a value below ten. -/
def digitChar : Nat → Char
  | 0 => '0' | 1 => '1' | 2 => '2' | 3 => '3' | 4 => '4'
  | 5 => '5' | 6 => '6' | 7 => '7' | 8 => '8' | _ => '9'

/-- The lowercase hexadecimal digit character for a value below sixteen. -/
def hexDigitChar : Nat → Char
  | 0 => '0' | 1 => '1' | 2 => '2' | 3 => '3' | 4 => '4'
  | 5 => '5' | 6 => '6' | 7 => '7' | 8 => '8' | 9 => '9'
  | 10 => 'a' | 11 => 'b' | 12 => 'c' | 13 => 'd' | 14 => 'e' | _ => 'f'

/-- The decimal digits of a natural number, most significant first. -/
def natDigits (n : Nat) : List Char :=
  if h : n < 10 then [digitChar n]
  else natDigits (n / 10) ++ [digitChar (n % 10)]
termination_by n
decreasing_by
  exact Nat.div_lt_self (by omega) (by omega)

/-- The decimal rendering of an integer, as `JSON.stringify` prints it. -/
def intChars (n : Int) : List Char :=
  if n < 0 then '-' :: natDigits (-n).toNat else natDigits n.toNat

/-- The numeral `JSON.stringify` prints for a number: its integer value when
the exponent is non-negative, mantissa-`e`-exponent otherwise, and `null`
for a non-finite number (`JSON.stringify(Infinity)` is `"null"`).  The model
prints a negative-exponent value in scientific notation where JavaScript may
choose a decimal-point spelling; both denote the same value, which is what
the round-trip statements compare. -/
def renderNum : JNumber → List Char
  | .fin m e =>
    if 0 ≤ e then intChars (m * 10 ^ e.toNat)
    else intChars m ++ 'e' :: intChars e
  | .inf => 'n' :: ['u', 'l', 'l']
  | .neginf => 'n' :: ['u', 'l', 'l']

/-- The escape of one character inside a JSON string, as `JSON.stringify`
emits it: quote and backslash are escaped, the five named control escapes are
used, any other control character becomes a `\u00XX` escape, and everything
else is literal. -/
def escapeChar (c : Char) : List Char :=
  if c = '"' then ['\\', '"']
  else if c = '\\' then ['\\', '\\']
  else if c = '\x08' then ['\\', 'b']
  else if c = '\x0c' then ['\\', 'f']
  else if c = '\n' then ['\\', 'n']
  else if c = '\r' then ['\\', 'r']
  else if c = '\t' then ['\\', 't']
  else if c.toNat < 32 then
    ['\\', 'u', '0', '0', hexDigitChar (c.toNat / 16), hexDigitChar (c.toNat % 16)]
  else [c]

/-- The body of a JSON string literal. -/
def escapeString (s : List Char) : List Char :=
  s.flatMap escapeChar

/-- A quoted JSON string literal. -/
def quoteString (s : String) : List Char :=
  '"' :: (escapeString s.data ++ ['"'])

/-- An indentation run of spaces. -/
def padChars (n : Nat) : List Char :=
  List.replicate n ' '

mutual

/-- The text `JSON.stringify(v, null, 2)` produces for a value, at a given
current indentation. -/
def renderJson (ind : Nat) : Json → List Char
  | .null => 'n' :: ['u', 'l', 'l']
  | .bool true => 't' :: ['r', 'u', 'e']
  | .bool false => 'f' :: ['a', 'l', 's', 'e']
  | .num q => renderNum q
  | .str s => quoteString s
  | .arr [] => ['[', ']']
  | .arr (x :: xs) =>
    '[' :: '\n' :: (padChars (ind + 2) ++ renderJson (ind + 2) x ++
      renderArrTail (ind + 2) xs ++ '\n' :: (padChars ind ++ [']']))
  | .obj [] => ['\x7b', '\x7d']
  | .obj (m :: ms) =>
    '\x7b' :: '\n' :: (padChars (ind + 2) ++ renderMember (ind + 2) m ++
      renderObjTail (ind + 2) ms ++ '\n' :: (padChars ind ++ ['\x7d']))

/-- The rendering of the remaining elements of a non-empty array. -/
def renderArrTail (ind : Nat) : List Json → List Char
  | [] => []
  | x :: xs =>
    ',' :: '\n' :: (padChars ind ++ renderJson ind x ++ renderArrTail ind xs)

/-- The rendering of one object member. -/
def renderMember (ind : Nat) (m : String × Json) : List Char :=
  quoteString m.1 ++ ':' :: ' ' :: renderJson ind m.2

/-- The rendering of the remaining members of a non-empty object. -/
def renderObjTail (ind : Nat) : List (String × Json) → List Char
  | [] => []
  | m :: ms =>
    ',' :: '\n' :: (padChars ind ++ renderMember ind m ++ renderObjTail ind ms)

end

/-- The model of `JSON.stringify(v, null, 2)`. -/
def stringify2 (v : Json) : String :=
  String.mk (renderJson 0 v)

mutual

/-- The value `JSON.parse (JSON.stringify v)` recovers: every non-finite
number was written as `null`, so it reads back as `null`; everything else is
unchanged. -/
def scrubNonFinite : Json → Json
  | .null => .null
  | .bool b => .bool b
  | .num q => if q.isFinite then .num q else .null
  | .str s => .str s
  | .arr xs => .arr (scrubList xs)
  | .obj ms => .obj (scrubMembers ms)

/-- `scrubNonFinite` over an array's elements. -/
def scrubList : List Json → List Json
  | [] => []
  | x :: xs => scrubNonFinite x :: scrubList xs

/-- `scrubNonFinite` over an object's member values. -/
def scrubMembers : List (String × Json) → List (String × Json)
  | [] => []
  | m :: ms => (m.1, scrubNonFinite m.2) :: scrubMembers ms

end

/-- JSON whitespace (the regex class `\s` restricted to this model's four
whitespace characters). -/
def wsChar (c : Char) : Bool :=
  c = ' ' || c = '\t' || c = '\n' || c = '\r'

/-- Drop leading whitespace. -/
def skipWs : List Char → List Char
  | [] => []
  | c :: cs => if wsChar c then skipWs cs else c :: cs

/-- Strip an expected literal token from the front of the input. -/
def stripTok : List Char → List Char → Option (List Char)
  | [], c => some c
  | _ :: _, [] => none
  | t :: ts, c :: cs => if c = t then stripTok ts cs else none

/-- The numeric value of a hexadecimal digit character. -/
def decodeHex (c : Char) : Option Nat :=
  if '0' ≤ c ∧ c ≤ '9' then some (c.toNat - 48)
  else if 'a' ≤ c ∧ c ≤ 'f' then some (c.toNat - 87)
  else if 'A' ≤ c ∧ c ≤ 'F' then some (c.toNat - 55)
  else none

/-- The named single-character escapes of JSON strings. -/
def decodeEscape (e : Char) : Option Char :=
  if e = '"' then some '"'
  else if e = '\\' then some '\\'
  else if e = '/' then some '/'
  else if e = 'b' then some '\x08'
  else if e = 'f' then some '\x0c'
  else if e = 'n' then some '\n'
  else if e = 'r' then some '\r'
  else if e = 't' then some '\t'
  else none

/-- Parse the body of a JSON string literal after its opening quote: the
decoded characters and the input after the closing quote.  Raw control
characters are rejected, as `JSON.parse` rejects them.  The fuel decreases
once per decoded character and is always at least the input length at the
call sites. -/
def parseStringBody : Nat → List Char → Option (List Char × List Char)
  | 0, _ => none
  | _ + 1, [] => none
  | f + 1, c :: rest =>
    if c = '"' then some ([], rest)
    else if c = '\\' then
      match rest with
      | [] => none
      | e :: rest₁ =>
        if e = 'u' then
          match rest₁ with
          | h1 :: h2 :: h3 :: h4 :: rest₂ =>
            match decodeHex h1, decodeHex h2, decodeHex h3, decodeHex h4 with
            | some a, some b, some c₁, some d =>
              match parseStringBody f rest₂ with
              | some (s, r) =>
                some (Char.ofNat (((a * 16 + b) * 16 + c₁) * 16 + d) :: s, r)
              | none => none
            | _, _, _, _ => none
          | _ => none
        else
          match decodeEscape e with
          | some d =>
            match parseStringBody f rest₁ with
            | some (s, r) => some (d :: s, r)
            | none => none
          | none => none
    else if c.toNat < 32 then none
    else
      match parseStringBody f rest with
      | some (s, r) => some (c :: s, r)
      | none => none

/-- Accumulate the value of a run of decimal digits. -/
def digitsToNat (acc : Nat) : List Char → Nat
  | [] => acc
  | c :: cs => digitsToNat (acc * 10 + (c.toNat - 48)) cs

/-- Parse a digit run without a leading zero, as the integer part of a JSON
number. -/
def parseNatPart (c : List Char) : Option (Nat × List Char) :=
  let ds := c.takeWhile Char.isDigit
  if ds.isEmpty then none
  else if 1 < ds.length ∧ ds.headD 'x' = '0' then none
  else some (digitsToNat 0 ds, c.dropWhile Char.isDigit)

/-- A non-empty digit run; leading zeros are allowed, as in the fraction and
exponent digits of the JSON number grammar. -/
def parseDigitRun (c : List Char) : Option (List Char × List Char) :=
  let ds := c.takeWhile Char.isDigit
  if ds.isEmpty then none else some (ds, c.dropWhile Char.isDigit)

/-- The optional fraction part of a JSON number: a dot must be followed by
at least one digit, and no dot means an empty fraction. -/
def parseFracPart : List Char → Option (List Char × List Char)
  | [] => some ([], [])
  | c :: cs =>
    if c = '.' then
      match parseDigitRun cs with
      | some (ds, r) => some (ds, r)
      | none => none
    else some ([], c :: cs)

/-- The optional exponent part of a JSON number: `e` or `E`, an optional
sign, and at least one digit; no exponent letter means exponent zero. -/
def parseExpPart : List Char → Option (Int × List Char)
  | [] => some (0, [])
  | c :: cs =>
    if c = 'e' ∨ c = 'E' then
      match cs with
      | [] => none
      | d :: cs₁ =>
        if d = '-' then
          match parseDigitRun cs₁ with
          | some (ds, r) => some (-(digitsToNat 0 ds : Int), r)
          | none => none
        else if d = '+' then
          match parseDigitRun cs₁ with
          | some (ds, r) => some ((digitsToNat 0 ds : Int), r)
          | none => none
        else
          match parseDigitRun (d :: cs₁) with
          | some (ds, r) => some ((digitsToNat 0 ds : Int), r)
          | none => none
    else some (0, c :: cs)

/-- Split an optional leading minus sign off a number literal. -/
def parseSignSplit : List Char → Bool × List Char
  | [] => (false, [])
  | d :: cs => if d = '-' then (true, cs) else (false, d :: cs)

/-- The model of a JSON number literal: an optional minus, an integer part
without a leading zero, an optional fraction, and an optional exponent.  The
exact decimal value is normalised, overflowing to a signed infinity exactly
as `JSON.parse` reads `1e999` as `Infinity`. -/
def parseNumber (c : List Char) : Option (JNumber × List Char) :=
  match parseNatPart (parseSignSplit c).2 with
  | none => none
  | some (i, r₁) =>
    match parseFracPart r₁ with
    | none => none
    | some (fds, r₂) =>
      match parseExpPart r₂ with
      | none => none
      | some (ex, r₃) =>
        some (normNum
          (if (parseSignSplit c).1
           then -((i * 10 ^ fds.length + digitsToNat 0 fds : Nat) : Int)
           else ((i * 10 ^ fds.length + digitsToNat 0 fds : Nat) : Int))
          (ex - fds.length), r₃)

/-- Whether an object already binds a key. -/
def keyMem (ms : List (String × Json)) (k : String) : Bool :=
  ms.any (fun m => m.1 == k)

/-- Insert a parsed object member as `JSON.parse` does: a repeated key keeps
its first position but takes the last value; a new key is appended. -/
def objInsert (ms : List (String × Json)) (k : String) (v : Json) :
    List (String × Json) :=
  if keyMem ms k then ms.map (fun m => if m.1 = k then (k, v) else m)
  else ms ++ [(k, v)]

mutual

/-- Parse one JSON value (fuelled; the fuel only bounds recursion depth and
is chosen large enough by the entry point). -/
def parseVal : Nat → List Char → Option (Json × List Char)
  | 0, _ => none
  | f + 1, c =>
    match skipWs c with
    | [] => none
    | d :: rest =>
      if d = 'n' then
        match stripTok ['u', 'l', 'l'] rest with
        | some r => some (.null, r)
        | none => none
      else if d = 't' then
        match stripTok ['r', 'u', 'e'] rest with
        | some r => some (.bool true, r)
        | none => none
      else if d = 'f' then
        match stripTok ['a', 'l', 's', 'e'] rest with
        | some r => some (.bool false, r)
        | none => none
      else if d = '"' then
        match parseStringBody f rest with
        | some (s, r) => some (.str (String.mk s), r)
        | none => none
      else if d = '[' then
        match skipWs rest with
        | e :: r₁ =>
          if e = ']' then some (.arr [], r₁)
          else
            match parseArrItems f rest [] with
            | some (xs, r) => some (.arr xs, r)
            | none => none
        | [] => none
      else if d = '\x7b' then
        match skipWs rest with
        | e :: r₁ =>
          if e = '\x7d' then some (.obj [], r₁)
          else
            match parseObjItems f rest [] with
            | some (ms, r) => some (.obj ms, r)
            | none => none
        | [] => none
      else
        match parseNumber (d :: rest) with
        | some (n, r) => some (.num n, r)
        | none => none

/-- Parse the elements of a non-empty array, accumulating parsed elements. -/
def parseArrItems : Nat → List Char → List Json →
    Option (List Json × List Char)
  | 0, _, _ => none
  | f + 1, c, acc =>
    match parseVal f c with
    | some (v, r) =>
      (match skipWs r with
       | e :: r₁ =>
         if e = ',' then parseArrItems f r₁ (acc ++ [v])
         else if e = ']' then some (acc ++ [v], r₁)
         else none
       | [] => none)
    | none => none

/-- Parse the members of a non-empty object, accumulating parsed members. -/
def parseObjItems : Nat → List Char → List (String × Json) →
    Option (List (String × Json) × List Char)
  | 0, _, _ => none
  | f + 1, c, acc =>
    match skipWs c with
    | d :: rest =>
      if d = '"' then
        match parseStringBody f rest with
        | some (k, r) =>
          (match skipWs r with
           | e :: r₁ =>
             if e = ':' then
               match parseVal f r₁ with
               | some (v, r₂) =>
                 (match skipWs r₂ with
                  | e₂ :: r₃ =>
                    if e₂ = ',' then
                      parseObjItems f r₃ (objInsert acc (String.mk k) v)
                    else if e₂ = '\x7d' then
                      some (objInsert acc (String.mk k) v, r₃)
                    else none
                  | [] => none)
               | none => none
             else none
           | [] => none)
        | none => none
      else none
    | [] => none

end

/-- The model of `JSON.parse`: parse one value with enough fuel and require
only trailing whitespace after it. -/
def parseJson (s : String) : Option Json :=
  match parseVal (2 * s.toList.length + 2) s.toList with
  | some (v, rest) => if (skipWs rest).isEmpty then some v else none
  | none => none

/-- The backtick character (code 96). -/
def backtickChar : Char := Char.ofNat 96

/-- A markdown code fence: three backticks. -/
def fenceChars : List Char := [backtickChar, backtickChar, backtickChar]

/-- The opening tag of a schema code block, as the first regex of
`extractSchemaFromText` matches it. -/
def jsonSchemaTag : List Char := fenceChars ++ "json:schema".toList

/-- The opening tag of a plain json code block, as the fallback regex of
`extractSchemaFromText` matches it. -/
def jsonTag : List Char := fenceChars ++ "json".toList

/-- The input after the first occurrence of a tag, or none when the tag never
occurs (the leftmost-match rule of `String.prototype.match`). -/
def splitAtTag (tag : List Char) : List Char → Option (List Char)
  | [] =>
    match stripTok tag [] with
    | some r => some r
    | none => none
  | c :: cs =>
    match stripTok tag (c :: cs) with
    | some r => some r
    | none => splitAtTag tag cs

/-- The characters before the first code fence, and the input after that
fence (the lazy capture up to the closing fence). -/
def captureUntilFence : List Char → Option (List Char × List Char)
  | [] => none
  | c :: cs =>
    match stripTok fenceChars (c :: cs) with
    | some r => some ([], r)
    | none =>
      match captureUntilFence cs with
      | some (cap, r) => some (c :: cap, r)
      | none => none

/-- Remove leading and trailing whitespace (the model of
`String.prototype.trim`). -/
def trimChars (l : List Char) : List Char :=
  ((l.dropWhile wsChar).reverse.dropWhile wsChar).reverse

/-- JavaScript truthiness of a parsed JSON value. -/
def jsTruthy : Json → Bool
  | .null => false
  | .bool b => b
  | .num (.fin m _) => decide (m ≠ 0)
  | .num _ => true
  | .str s => decide (s ≠ "")
  | .arr _ => true
  | .obj _ => true

/-- Property access on a parsed JSON value: some value only when the
receiver is an object binding the key. -/
def objGet (j : Json) (k : String) : Option Json :=
  match j with
  | .obj ms => lookupEntry ms k
  | _ => none

/-- The fallback filter of `extractSchemaFromText`: the parsed value looks
like a form schema when `parsed.schema?.properties || parsed.properties` is
truthy. -/
def looksLikeSchema (j : Json) : Bool :=
  (match objGet j "schema" with
   | some s =>
     match objGet s "properties" with
     | some p => jsTruthy p
     | none => false
   | none => false) ||
  (match objGet j "properties" with
   | some p => jsTruthy p
   | none => false)

/-- The fallback loop of `extractSchemaFromText`: scan successive
` ```json ` blocks; return the first whose content parses and looks like a
schema, re-serialised with two-space indentation.  The fuel only bounds the
number of blocks scanned and is chosen large enough by the entry point. -/
def extractFallback : Nat → List Char → Option String
  | 0, _ => none
  | f + 1, text =>
    match splitAtTag jsonTag text with
    | none => none
    | some afterTag =>
      match captureUntilFence (skipWs afterTag) with
      | none => none
      | some (cap, afterFence) =>
        match parseJson (String.mk (trimChars cap)) with
        | some j =>
          if looksLikeSchema j then some (stringify2 j)
          else extractFallback f afterFence
        | none => extractFallback f afterFence

/-- The model of the TypeScript `extractSchemaFromText`: match a
` ```json:schema ` block first — a non-empty capture is parsed, a parse
failure yields null — and otherwise fall back to scanning ` ```json `
blocks for one that looks like a schema.  A successful extraction returns
`JSON.stringify(parsed, null, 2)`. -/
def extractSchemaFromText (text : String) : Option String :=
  match splitAtTag jsonSchemaTag text.toList with
  | some afterTag =>
    match captureUntilFence (skipWs afterTag) with
    | some (cap, _) =>
      if cap ≠ [] then
        match parseJson (String.mk (trimChars cap)) with
        | some j => some (stringify2 j)
        | none => none
      else extractFallback (text.toList.length + 1) text.toList
    | none => extractFallback (text.toList.length + 1) text.toList
  | none => extractFallback (text.toList.length + 1) text.toList

/-- A schema block whose content is the literal `1e999`, which `JSON.parse`
reads as `Infinity`. -/
def cexBlock : List Char := ['1', 'e', '9', '9', '9', '\n']

/-- A chat message carrying exactly that block behind the `json:schema`
tag. -/
def cexText : String :=
  String.mk (jsonSchemaTag ++ '\n' :: (cexBlock ++ fenceChars))

/-- The continuation after a digit run must not begin with a digit. -/
def headNotDigit : List Char → Prop
  | [] => True
  | c :: _ => c.isDigit = false

/-- The continuation after a rendered numeral must not extend it: no digit,
no fraction dot, no exponent letter (inside rendered documents it begins
with a separator or is empty). -/
def numBoundary : List Char → Prop
  | [] => True
  | c :: _ => c.isDigit = false ∧ c ≠ '.' ∧ c ≠ 'e' ∧ c ≠ 'E'

/-- The side condition of the parsing lemmas: only a rendered number
constrains what may follow it. -/
def numGuard : Json → List Char → Prop
  | .num _, rest => numBoundary rest
  | _, _ => True

/-- A value is parsed back from its rendering, at any indentation, with any
sufficient fuel, before any admissible continuation. -/
def ValOk (v : Json) : Prop :=
  ∀ (ind : Nat) (rest : List Char) (f : Nat),
    2 * (renderJson ind v ++ rest).length + 1 ≤ f → numGuard v rest →
    parseVal f (renderJson ind v ++ rest) = some (v, rest)

/-! ## Theorems -/

theorem AnswerStore.get_filter_ne (s : AnswerStore) (a : Address)
    (p : Address × Value → Bool) (hp : ∀ v, p (a, v) = true) :
    AnswerStore.get (s.filter p) a = s.get a := by
  induction s with
  | nil => rfl
  | cons e rest ih =>
    by_cases he : e.1 = a
    · have : e = (a, e.2) := by cases e; simp_all
      rw [this]
      simp [List.filter, hp e.2, AnswerStore.get, ih]
    · by_cases hpe : p e = true
      · simp [List.filter, hpe, AnswerStore.get, he, ih]
      · simp at hpe
        simp [List.filter, hpe, AnswerStore.get, he, ih]

theorem AnswerStore.get_set_self (s : AnswerStore) (a : Address) (v : Value) :
    (s.set a v).get a = some v := by
  simp [AnswerStore.set, AnswerStore.get]

theorem AnswerStore.get_set_ne (s : AnswerStore) (a b : Address) (v : Value)
    (h : b ≠ a) : (s.set a v).get b = s.get b := by
  have hne : ¬ (a = b) := fun hc => h hc.symm
  simp only [AnswerStore.set, AnswerStore.get, if_neg hne]
  exact AnswerStore.get_filter_ne s b _ (fun _ => decide_eq_true h)

theorem AnswerStore.get_remove_self (s : AnswerStore) (a : Address) :
    (s.remove a).get a = none := by
  induction s with
  | nil => rfl
  | cons e rest ih =>
    by_cases he : e.1 = a
    · simp [AnswerStore.remove, List.filter, he] at ih ⊢
      exact ih
    · simp [AnswerStore.remove, List.filter, he, AnswerStore.get] at ih ⊢
      exact ih

theorem AnswerStore.get_remove_ne (s : AnswerStore) (a b : Address)
    (h : b ≠ a) : (s.remove a).get b = s.get b :=
  AnswerStore.get_filter_ne s b _ (fun _ => decide_eq_true h)

theorem runPass_append (s : EngineState) (w₁ w₂ : List (Address × Predicate)) :
    runPass s (w₁ ++ w₂) = runPass (runPass s w₁) w₂ := by
  simp [runPass, List.foldl_append]

theorem EngineState.accessOf_setAccess_self (s : EngineState) (a : Address)
    (st : AccessState) : (s.setAccess a st).accessOf a = st := by
  simp [EngineState.setAccess, EngineState.accessOf, List.find?]

/-- C3: for every CALC predicate firing whose formula evaluates to null,
executing the action removes the field's entry from the Answer Store (the key
becomes absent, not bound to a literal null); for every non-null result, the
field's value is replaced wholesale by that result. -/
theorem C3_calc_null_clears (s : EngineState) (field : Address) (formula : Expr) :
    (eval s.answers formula = .ok .vnull →
      (execAction s field (.CALC formula)).answers.get field = none) ∧
    (∀ v : Value, v ≠ .vnull → eval s.answers formula = .ok v →
      (execAction s field (.CALC formula)).answers.get field = some v) := by
  constructor
  · intro h
    simp [execAction, h, AnswerStore.get_remove_self]
  · intro v hv h
    cases v with
    | vnull => exact absurd rfl hv
    | vbool b => simp [execAction, h, AnswerStore.get_set_self]
    | vnum n => simp [execAction, h, AnswerStore.get_set_self]
    | vstr t => simp [execAction, h, AnswerStore.get_set_self]

theorem C3_calc_null_clears_witness :
    (execAction demoState ["total"]
        (.CALC (.mul (.ref ["qty"]) (.ref ["price"])))).answers.get ["total"] =
      some (.vnum 150) ∧
    (execAction demoState ["total"]
        (.CALC (.ref ["missing"]))).answers.get ["total"] = none :=
  ⟨(C3_calc_null_clears demoState ["total"]
      (.mul (.ref ["qty"]) (.ref ["price"]))).2 (.vnum 150) (by decide) (by rfl),
   (C3_calc_null_clears demoState ["total"] (.ref ["missing"])).1 (by rfl)⟩

/-- C4: for every APPLY_ACCESS_MATRIX firing with a partial access-matrix
payload, the resulting field access state equals the prior access state
overwritten only at the properties present in the payload; every property not
mentioned in the payload retains its prior value. -/
theorem C4_access_matrix_merge (s : EngineState) (field : Address)
    (patch : AccessMatrixPatch) :
    (execAction s field (.APPLY_ACCESS_MATRIX patch)).accessOf field =
      applyAccessMatrix (s.accessOf field) patch ∧
    (∀ v, patch.visibility = some v →
      (applyAccessMatrix (s.accessOf field) patch).visibility = v) ∧
    (patch.visibility = none →
      (applyAccessMatrix (s.accessOf field) patch).visibility =
        (s.accessOf field).visibility) ∧
    (∀ b, patch.mandatory = some b →
      (applyAccessMatrix (s.accessOf field) patch).mandatory = b) ∧
    (patch.mandatory = none →
      (applyAccessMatrix (s.accessOf field) patch).mandatory =
        (s.accessOf field).mandatory) ∧
    (∀ b, patch.readOnly = some b →
      (applyAccessMatrix (s.accessOf field) patch).readOnly = b) ∧
    (patch.readOnly = none →
      (applyAccessMatrix (s.accessOf field) patch).readOnly =
        (s.accessOf field).readOnly) := by
  refine ⟨EngineState.accessOf_setAccess_self _ _ _, ?_, ?_, ?_, ?_, ?_, ?_⟩ <;>
    intro h <;> simp_all [applyAccessMatrix]

theorem C4_access_matrix_merge_witness :
    (execAction demoPriorState ["reason"]
        (.APPLY_ACCESS_MATRIX { mandatory := some true })).accessOf ["reason"] =
      { visibility := .INVISIBLE, mandatory := true, readOnly := false } := by
  have h := C4_access_matrix_merge demoPriorState ["reason"] { mandatory := some true }
  rw [h.1]
  have hacc : demoPriorState.accessOf ["reason"] =
      { visibility := .INVISIBLE, mandatory := false, readOnly := false } := by decide
  have hfields : ∀ x : AccessState, x.visibility = .INVISIBLE → x.mandatory = true →
      x.readOnly = false →
      x = { visibility := .INVISIBLE, mandatory := true, readOnly := false } := by
    intro x h1 h2 h3
    cases x
    simp_all
  refine hfields _ ?_ (h.2.2.2.1 true rfl) ?_
  · rw [h.2.2.1 rfl, hacc]
  · rw [h.2.2.2.2.2.2 rfl, hacc]

/-- C8: an EvaluationError raised by one field's predicate condition causes
that predicate to be treated as condition-false (action skipped, answers and
access untouched) and a diagnostic to be accumulated, while every other field
of the pass is still evaluated: the pass continues on the same state with only
the diagnostics list extended, and is never aborted. -/
theorem C8_error_recovered_locally (s : EngineState)
    (pre post : List (Address × Predicate)) (f : Address) (p : Predicate)
    (err : EvalError)
    (h : evalCondition (runPass s pre).answers p.condition = .error err) :
    runPass s (pre ++ (f, p) :: post) =
      runPass { runPass s pre with
                diagnostics := (runPass s pre).diagnostics ++ [(f, err)] } post ∧
    (runPredicate (runPass s pre) f p).answers = (runPass s pre).answers ∧
    (runPredicate (runPass s pre) f p).access = (runPass s pre).access ∧
    (runPredicate (runPass s pre) f p).diagnostics =
      (runPass s pre).diagnostics ++ [(f, err)] := by
  have hp : runPredicate (runPass s pre) f p =
      { runPass s pre with
        diagnostics := (runPass s pre).diagnostics ++ [(f, err)] } := by
    simp [runPredicate, h]
  refine ⟨?_, by rw [hp], by rw [hp], by rw [hp]⟩
  rw [runPass_append]
  show runPass (runPredicate (runPass s pre) f p) post = _
  rw [hp]

theorem C8_error_recovered_locally_witness :
    (runPass emptyState
        [(["a"], demoBadPredicate), (["b"], demoGoodPredicate)]).answers.get ["b"] =
      some (.vnum 2) ∧
    (runPass emptyState
        [(["a"], demoBadPredicate), (["b"], demoGoodPredicate)]).diagnostics =
      [(["a"], .TypeMismatchError)] := by
  have h := C8_error_recovered_locally emptyState [] [(["b"], demoGoodPredicate)]
    ["a"] demoBadPredicate .TypeMismatchError (by rfl)
  have h1 := h.1
  simp only [List.nil_append] at h1
  rw [h1]
  constructor <;> decide

theorem lookupEntry_filter_ne [DecidableEq κ] (m : List (κ × α)) (k : κ)
    (p : κ × α → Bool) (hp : ∀ v, p (k, v) = true) :
    lookupEntry (m.filter p) k = lookupEntry m k := by
  induction m with
  | nil => rfl
  | cons e rest ih =>
    by_cases he : e.1 = k
    · have : e = (k, e.2) := by cases e; simp_all
      rw [this]
      simp [List.filter, hp e.2, lookupEntry, ih]
    · by_cases hpe : p e = true
      · simp [List.filter, hpe, lookupEntry, he, ih]
      · simp at hpe
        simp [List.filter, hpe, lookupEntry, he, ih]

theorem lookupEntry_set_self [DecidableEq κ] (m : List (κ × α)) (k : κ) (v : α) :
    lookupEntry (setEntry m k v) k = some v := by
  simp [setEntry, lookupEntry]

theorem lookupEntry_set_ne [DecidableEq κ] (m : List (κ × α)) (k b : κ) (v : α)
    (h : b ≠ k) : lookupEntry (setEntry m k v) b = lookupEntry m b := by
  have hne : ¬ (k = b) := fun hc => h hc.symm
  simp only [setEntry, lookupEntry, if_neg hne]
  exact lookupEntry_filter_ne m b _ (fun _ => decide_eq_true h)

theorem lookupEntry_remove_self [DecidableEq κ] (m : List (κ × α)) (k : κ) :
    lookupEntry (removeEntry m k) k = none := by
  induction m with
  | nil => rfl
  | cons e rest ih =>
    by_cases he : e.1 = k
    · simp [removeEntry, List.filter, he] at ih ⊢
      exact ih
    · simp [removeEntry, List.filter, he, lookupEntry] at ih ⊢
      exact ih

theorem lookupEntry_remove_ne [DecidableEq κ] (m : List (κ × α)) (k b : κ)
    (h : b ≠ k) : lookupEntry (removeEntry m k) b = lookupEntry m b :=
  lookupEntry_filter_ne m b _ (fun _ => decide_eq_true h)

/-- C6: when the controlling parent field of an OPTION_FILTER has no value,
the recomputed option set under the default configuration is empty — not the
full dataset and not the field's prior selection — and the behaviour is
selected by the named configuration switch: the other switch positions yield
the full dataset and the prior selection respectively. -/
theorem C6_option_filter_empty_parent (rows prior : List Row)
    (linkCol : String) :
    optionFilter defaultEngineConfig rows linkCol none prior = [] ∧
    defaultEngineConfig.emptyParentBehavior = .showNoOptions ∧
    (rows ≠ [] →
      optionFilter defaultEngineConfig rows linkCol none prior ≠ rows) ∧
    (prior ≠ [] →
      optionFilter defaultEngineConfig rows linkCol none prior ≠ prior) ∧
    optionFilter { emptyParentBehavior := .showAllOptions } rows linkCol none
      prior = rows ∧
    optionFilter { emptyParentBehavior := .keepPriorOptions } rows linkCol none
      prior = prior := by
  refine ⟨rfl, rfl, ?_, ?_, rfl, rfl⟩
  · intro h hc
    exact h hc.symm
  · intro h hc
    exact h hc.symm

theorem C6_option_filter_empty_parent_witness :
    optionFilter defaultEngineConfig locationMaster "state" none
      [[("state", "Maharashtra"), ("district", "Mumbai")]] = [] ∧
    optionFilter defaultEngineConfig locationMaster "state" none
      [[("state", "Maharashtra"), ("district", "Mumbai")]] ≠ locationMaster ∧
    optionFilter defaultEngineConfig locationMaster "state" none
      [[("state", "Maharashtra"), ("district", "Mumbai")]] ≠
      [[("state", "Maharashtra"), ("district", "Mumbai")]] := by
  have h := C6_option_filter_empty_parent locationMaster
    [[("state", "Maharashtra"), ("district", "Mumbai")]] "state"
  exact ⟨h.1, h.2.2.1 (by decide), h.2.2.2.1 (by decide)⟩

theorem cascadeStep_unfold (rows : List Row) (sch : CascadeSchema)
    (k v e : String) (fd : CascadeField) (hfd : sch.fieldDef e = some fd)
    (hpar : fd.optionFilterParent = some k) (acc : CascadeState) :
    cascadeStep rows sch k v acc e =
      { values := removeEntry acc.values e
        options := setEntry acc.options e
          (optionFilter defaultEngineConfig rows k (some v) (acc.optionsOf e)) } := by
  simp [cascadeStep, hfd, hpar]

theorem cascadeStep_establishes (rows : List Row) (sch : CascadeSchema)
    (k v d : String) (fd : CascadeField) (hfd : sch.fieldDef d = some fd)
    (hpar : fd.optionFilterParent = some k) (acc : CascadeState) :
    (cascadeStep rows sch k v acc d).valueOf d = none ∧
    (cascadeStep rows sch k v acc d).optionsOf d =
      rows.filter (fun r => lookupEntry r k == some v) := by
  rw [cascadeStep_unfold rows sch k v d fd hfd hpar acc]
  constructor
  · exact lookupEntry_remove_self acc.values d
  · simp only [CascadeState.optionsOf, lookupEntry_set_self, Option.getD_some]
    rfl

theorem cascadeStep_preserves (rows : List Row) (sch : CascadeSchema)
    (k v d e : String) (acc : CascadeState)
    (h : acc.valueOf d = none ∧ acc.optionsOf d =
      rows.filter (fun r => lookupEntry r k == some v)) :
    (cascadeStep rows sch k v acc e).valueOf d = none ∧
    (cascadeStep rows sch k v acc e).optionsOf d =
      rows.filter (fun r => lookupEntry r k == some v) := by
  by_cases hed : e = d
  · subst hed
    cases hfd : sch.fieldDef e with
    | none => simpa [cascadeStep, hfd] using h
    | some fd =>
      by_cases hpar : fd.optionFilterParent = some k
      · exact cascadeStep_establishes rows sch k v e fd hfd hpar acc
      · simpa [cascadeStep, hfd, hpar] using h
  · have hne : d ≠ e := fun hc => hed hc.symm
    cases hfd : sch.fieldDef e with
    | none => simpa [cascadeStep, hfd] using h
    | some fd =>
      by_cases hpar : fd.optionFilterParent = some k
      · rw [cascadeStep_unfold rows sch k v e fd hfd hpar acc]
        refine ⟨?_, ?_⟩
        · show lookupEntry (removeEntry acc.values e) d = none
          rw [lookupEntry_remove_ne acc.values e d hne]
          exact h.1
        · show (lookupEntry (setEntry acc.options e _) d).getD [] = _
          rw [lookupEntry_set_ne acc.options e d _ hne]
          exact h.2
      · simpa [cascadeStep, hfd, hpar] using h

theorem cascadeFold_preserves (rows : List Row) (sch : CascadeSchema)
    (k v d : String) (l : List String) (acc : CascadeState)
    (h : acc.valueOf d = none ∧ acc.optionsOf d =
      rows.filter (fun r => lookupEntry r k == some v)) :
    (l.foldl (cascadeStep rows sch k v) acc).valueOf d = none ∧
    (l.foldl (cascadeStep rows sch k v) acc).optionsOf d =
      rows.filter (fun r => lookupEntry r k == some v) := by
  induction l generalizing acc with
  | nil => exact h
  | cons e rest ih =>
    exact ih _ (cascadeStep_preserves rows sch k v d e acc h)

/-- C2: for every parent field P and every declared dependent field D whose
options are derived via an OPTION_FILTER keyed on P, setting P's value to V2
after it held V1 (V1 distinct from V2) clears D's value and recomputes D's
option set as the master-dataset partition matching the new parent value. -/
theorem C2_cascade_clear (rows : List Row) (sch : CascadeSchema)
    (s : CascadeState) (k v₁ v₂ d : String) (fd : CascadeField)
    (_hne : v₁ ≠ v₂) (hd : d ∈ sch.dependentsOf k)
    (hfd : sch.fieldDef d = some fd) (hpar : fd.optionFilterParent = some k) :
    (setParentValue rows sch (setParentValue rows sch s k v₁) k v₂).valueOf d =
      none ∧
    (setParentValue rows sch (setParentValue rows sch s k v₁) k v₂).optionsOf
      d = rows.filter (fun r => lookupEntry r k == some v₂) := by
  obtain ⟨l₁, l₂, hl⟩ := List.append_of_mem hd
  unfold setParentValue
  rw [hl, List.foldl_append]
  simp only [List.foldl_cons]
  exact cascadeFold_preserves rows sch k v₂ d l₂ _
    (cascadeStep_establishes rows sch k v₂ d fd hfd hpar _)

theorem C2_cascade_clear_witness :
    (setParentValue locationMaster scenarioASchema
        (setParentValue locationMaster scenarioASchema
          { values := [], options := [] } "state" "Maharashtra")
        "state" "Karnataka").valueOf "district" = none ∧
    (setParentValue locationMaster scenarioASchema
        (setParentValue locationMaster scenarioASchema
          { values := [], options := [] } "state" "Maharashtra")
        "state" "Karnataka").optionsOf "district" =
      [[("state", "Karnataka"), ("district", "Bengaluru")]] := by
  have h := C2_cascade_clear locationMaster scenarioASchema
    { values := [], options := [] } "state" "Maharashtra" "Karnataka" "district"
    { key := "district", optionFilterParent := some "state" }
    (by decide) (by decide) (by decide) (by decide)
  refine ⟨h.1, ?_⟩
  rw [h.2]
  decide

/-- C10: every form schema representable at the AI form helper V1 interface
constrains accessMatrix visibility, at field level and inside predicates, to
exactly the literals VISIBLE and INVISIBLE — the GONE state of the documented
runtime is not representable — and every shipped template stays inside those
two literals. -/
theorem C10_v1_visibility_no_gone :
    (∀ v : V1Visibility,
      v.toLiteral = "VISIBLE" ∨ v.toLiteral = "INVISIBLE") ∧
    (∀ v : V1Visibility, v.toLiteral ≠ "GONE") ∧
    (∀ t ∈ TEMPLATES, ∀ lit ∈ V1FormSchema.visibilityLiterals t.2,
      lit = "VISIBLE" ∨ lit = "INVISIBLE") := by
  refine ⟨?_, ?_, by decide⟩
  · intro v
    cases v
    · exact Or.inl rfl
    · exact Or.inr rfl
  · intro v
    cases v <;> decide

theorem C10_v1_visibility_no_gone_witness :
    ("INVISIBLE" : String) = "VISIBLE" ∨ ("INVISIBLE" : String) = "INVISIBLE" :=
  C10_v1_visibility_no_gone.2.2 ("advanced", ADVANCED_TEMPLATE) (by decide)
    "INVISIBLE" (by decide)

/-- C7: two resolve requests issued for the same (masterId, partitionFilter)
cache key while no valid cached entry and no in-flight fetch exist — the
second arriving while the first's fetch is in flight — cause exactly one
fetch to be sent, and on completion both requesters receive the rows of that
single shared fetch. -/
theorem C7_fetch_dedup (s : MasterManagerState) (key : String)
    (data : List Row) (r₁ r₂ : Nat) (hr : r₁ ≠ r₂)
    (hc : lookupEntry s.cache key = none)
    (hi : lookupEntry s.inflight key = none) :
    (((s.request r₁ key).request r₂ key).completeFetch key data).fetchCount =
      s.fetchCount + 1 ∧
    lookupEntry
      (((s.request r₁ key).request r₂ key).completeFetch key data).results r₁ =
      some data ∧
    lookupEntry
      (((s.request r₁ key).request r₂ key).completeFetch key data).results r₂ =
      some data := by
  have h₁ : s.request r₁ key =
      { s with inflight := setEntry s.inflight key [r₁]
               fetchCount := s.fetchCount + 1 } := by
    simp [MasterManagerState.request, hc, hi]
  have h₂ : (s.request r₁ key).request r₂ key =
      { s with inflight := setEntry (setEntry s.inflight key [r₁]) key [r₁, r₂]
               fetchCount := s.fetchCount + 1 } := by
    rw [h₁]
    simp [MasterManagerState.request, hc, lookupEntry_set_self]
  have h₃ : ((s.request r₁ key).request r₂ key).completeFetch key data =
      { s with
          cache := setEntry s.cache key data
          inflight :=
            removeEntry (setEntry (setEntry s.inflight key [r₁]) key [r₁, r₂])
              key
          fetchCount := s.fetchCount + 1
          results := setEntry (setEntry s.results r₁ data) r₂ data } := by
    rw [h₂]
    simp [MasterManagerState.completeFetch, lookupEntry_set_self, List.foldl]
  rw [h₃]
  refine ⟨rfl, ?_, lookupEntry_set_self _ _ _⟩
  rw [lookupEntry_set_ne _ _ _ _ hr]
  exact lookupEntry_set_self _ _ _

theorem C7_fetch_dedup_witness :
    ((((emptyMasterManager.request 0 "master-70311147|s=Maharashtra").request 1
        "master-70311147|s=Maharashtra").completeFetch
        "master-70311147|s=Maharashtra" locationMaster).fetchCount = 1) ∧
    lookupEntry
      (((emptyMasterManager.request 0 "master-70311147|s=Maharashtra").request 1
        "master-70311147|s=Maharashtra").completeFetch
        "master-70311147|s=Maharashtra" locationMaster).results 0 =
      some locationMaster ∧
    lookupEntry
      (((emptyMasterManager.request 0 "master-70311147|s=Maharashtra").request 1
        "master-70311147|s=Maharashtra").completeFetch
        "master-70311147|s=Maharashtra" locationMaster).results 1 =
      some locationMaster :=
  C7_fetch_dedup emptyMasterManager "master-70311147|s=Maharashtra"
    locationMaster 0 1 (by decide) (by rfl) (by rfl)

theorem AnswerStore.get_filter_none (s : AnswerStore)
    (p : Address × Value → Bool) (a : Address) (h : s.get a = none) :
    AnswerStore.get (s.filter p) a = none := by
  induction s with
  | nil => rfl
  | cons e rest ih =>
    have hne : ¬ (e.1 = a) := by
      intro he
      have hc : AnswerStore.get (e :: rest) a = some e.2 := by
        simp [AnswerStore.get, he]
      rw [h] at hc
      cases hc
    have hrest : AnswerStore.get rest a = none := by
      have hc : AnswerStore.get (e :: rest) a = AnswerStore.get rest a := by
        simp [AnswerStore.get, hne]
      rw [← hc]
      exact h
    by_cases hpe : p e = true
    · simp [List.filter, hpe, AnswerStore.get, hne]
      exact ih hrest
    · simp at hpe
      simp [List.filter, hpe]
      exact ih hrest

theorem AnswerStore.get_filter_false (s : AnswerStore)
    (p : Address × Value → Bool) (a : Address) (h : ∀ v, p (a, v) = false) :
    AnswerStore.get (s.filter p) a = none := by
  induction s with
  | nil => rfl
  | cons e rest ih =>
    by_cases he : e.1 = a
    · have hea : e = (a, e.2) := by cases e; simp_all
      rw [hea]
      simp [List.filter, h e.2]
      exact ih
    · by_cases hpe : p e = true
      · simp [List.filter, hpe, AnswerStore.get, he]
        exact ih
      · simp at hpe
        simp [List.filter, hpe]
        exact ih

theorem isPrefixOf_exists_append (q p : Address)
    (h : q.isPrefixOf p = true) : ∃ t, p = q ++ t := by
  simp at h
  obtain ⟨t, ht⟩ := h
  exact ⟨t, ht.symm⟩

theorem mem_strictAncestors (q p : Address) (hpre : q.isPrefixOf p = true)
    (hne : q ≠ p) : q ∈ strictAncestors p := by
  obtain ⟨t, ht⟩ := isPrefixOf_exists_append q p hpre
  have htne : t ≠ [] := by
    intro h0
    apply hne
    rw [ht, h0, List.append_nil]
  refine List.mem_map.mpr ⟨q.length, List.mem_range.mpr ?_, ?_⟩
  · rw [ht, List.length_append]
    have := List.length_pos_of_ne_nil htne
    omega
  · rw [ht]
    exact List.take_left q t

theorem gateClosedAbove_of (s : GateState) (p q : Address)
    (hpre : q.isPrefixOf p = true) (hne : q ≠ p) (hg : s.visOf q = .GONE) :
    gateClosedAbove s p = true := by
  unfold gateClosedAbove
  rw [List.any_eq_true]
  exact ⟨q, mem_strictAncestors q p hpre hne, by simp [hg]⟩

theorem effectiveVisibility_eq_gone (s : GateState) (p : Address)
    (h : gateClosedAbove s p = true) : effectiveVisibility s p = .GONE := by
  simp [effectiveVisibility, h]

theorem clearSubtree_get_of_pre (ans : AnswerStore) (p x : Address)
    (h : p.isPrefixOf x = true) : (clearSubtree ans p).get x = none :=
  AnswerStore.get_filter_false ans _ x (fun v => by simp [h])

theorem GateStep.preserves_invariant (s t : GateState) (hstep : GateStep s t)
    (hinv : GateInvariant s) : GateInvariant t := by
  cases hstep with
  | write p v h =>
    intro x q hpre hne hg
    by_cases hxp : x = p
    · subst hxp
      exact absurd
        (effectiveVisibility_eq_gone s x (gateClosedAbove_of s x q hpre hne hg))
        h
    · show (s.ans.set p v).get x = none
      rw [AnswerStore.get_set_ne s.ans p x v hxp]
      exact hinv x q hpre hne hg
  | clear p =>
    intro x q hpre hne hg
    by_cases hxp : x = p
    · subst hxp
      exact AnswerStore.get_remove_self s.ans x
    · show (s.ans.remove p).get x = none
      rw [AnswerStore.get_remove_ne s.ans p x hxp]
      exact hinv x q hpre hne hg
  | setVisibility p w =>
    intro x q hpre hne hg
    by_cases hqp : q = p
    · subst hqp
      have hw : w = .GONE := by
        have hv : (lookupEntry (setEntry s.vis q w) q).getD Visibility.VISIBLE =
            .GONE := hg
        rw [lookupEntry_set_self] at hv
        simpa using hv
      show (if w = .GONE then clearSubtree s.ans q else s.ans).get x = none
      rw [if_pos hw]
      exact clearSubtree_get_of_pre s.ans q x hpre
    · have hg' : s.visOf q = .GONE := by
        have hv : (lookupEntry (setEntry s.vis p w) q).getD Visibility.VISIBLE =
            .GONE := hg
        rw [lookupEntry_set_ne s.vis p q w hqp] at hv
        exact hv
      have hx : s.ans.get x = none := hinv x q hpre hne hg'
      show (if w = .GONE then clearSubtree s.ans p else s.ans).get x = none
      by_cases hwg : w = .GONE
      · rw [if_pos hwg]
        exact AnswerStore.get_filter_none s.ans _ x hx
      · rw [if_neg hwg]
        exact hx

theorem GateReachable.invariant (vis₀ : List (Address × Visibility))
    (s : GateState) (h : GateReachable vis₀ s) : GateInvariant s := by
  induction h with
  | init => intro x q _ _ _; rfl
  | step u t _ hstep ih => exact GateStep.preserves_invariant u t hstep ih

/-- C1: for every reachable answer/access state and every field F having a
proper ancestor A whose visibility is GONE, the effective visibility computed
for F is GONE and F's value is absent from the Answer Store, regardless of
F's own access state and predicates. -/
theorem C1_gate_invariant (vis₀ : List (Address × Visibility)) (s : GateState)
    (hreach : GateReachable vis₀ s) (p q : Address)
    (hpre : q.isPrefixOf p = true) (hne : q ≠ p) (hg : s.visOf q = .GONE) :
    effectiveVisibility s p = .GONE ∧ s.ans.get p = none :=
  ⟨effectiveVisibility_eq_gone s p (gateClosedAbove_of s p q hpre hne hg),
   GateReachable.invariant vis₀ s hreach p q hpre hne hg⟩

theorem C1_gate_invariant_witness :
    effectiveVisibility gateDemoState ["sec", "child"] = .GONE ∧
    gateDemoState.ans.get ["sec", "child"] = none := by
  have h₁ : GateReachable []
      { vis := ([] : List (Address × Visibility))
        ans := AnswerStore.set [] ["sec", "child"] (.vstr "x") } :=
    GateReachable.step _ _ GateReachable.init
      (GateStep.write _ ["sec", "child"] (.vstr "x") (by decide))
  have h₂ : GateReachable [] gateDemoState :=
    GateReachable.step _ _ h₁ (GateStep.setVisibility _ ["sec"] .GONE)
  exact C1_gate_invariant [] gateDemoState h₂ ["sec", "child"] ["sec"]
    (by decide) (by decide) (by decide)

theorem mem_edgeTargets (edges : DepEdges) (a w : String) :
    w ∈ edgeTargets edges a ↔ (a, w) ∈ edges := by
  simp only [edgeTargets, List.mem_map, List.mem_filter, decide_eq_true_eq]
  constructor
  · rintro ⟨⟨e1, e2⟩, ⟨he, ha⟩, hw⟩
    simp only at ha hw
    rw [← ha, ← hw]
    exact he
  · intro h
    exact ⟨(a, w), ⟨h, rfl⟩, rfl⟩

theorem subset_expandOnce (edges : DepEdges) (S : Finset String) :
    S ⊆ expandOnce edges S := by
  intro x hx
  exact Finset.mem_union_left _ hx

theorem reachIter_subset_succ (edges : DepEdges) (k : Nat) (S : Finset String) :
    reachIter edges k S ⊆ reachIter edges (k + 1) S :=
  subset_expandOnce edges (reachIter edges k S)

theorem reachIter_mono (edges : DepEdges) (k m : Nat) (h : k ≤ m)
    (S : Finset String) : reachIter edges k S ⊆ reachIter edges m S := by
  induction h with
  | refl => exact subset_rfl
  | step h ih => exact ih.trans (reachIter_subset_succ edges _ S)

theorem targets_subset_allNodes (edges : DepEdges) (a : String) :
    (edgeTargets edges a).toFinset ⊆ allNodes edges := by
  intro x hx
  rw [List.mem_toFinset, mem_edgeTargets] at hx
  apply Finset.mem_union_right
  rw [List.mem_toFinset]
  exact List.mem_map.mpr ⟨(a, x), hx, rfl⟩

theorem expandOnce_subset_allNodes (edges : DepEdges) (S : Finset String)
    (hS : S ⊆ allNodes edges) : expandOnce edges S ⊆ allNodes edges := by
  intro x hx
  rw [expandOnce, Finset.mem_union] at hx
  cases hx with
  | inl h => exact hS h
  | inr h =>
    obtain ⟨a, _, hx⟩ := Finset.mem_biUnion.mp h
    exact targets_subset_allNodes edges a hx

theorem reachIter_subset_allNodes (edges : DepEdges) (k : Nat)
    (S : Finset String) (hS : S ⊆ allNodes edges) :
    reachIter edges k S ⊆ allNodes edges := by
  induction k with
  | zero => exact hS
  | succ k ih => exact expandOnce_subset_allNodes edges _ ih

theorem reachIter_eq_of_fix (edges : DepEdges) (j m : Nat) (S : Finset String)
    (hfix : reachIter edges (j + 1) S = reachIter edges j S) (h : j ≤ m) :
    reachIter edges m S = reachIter edges j S := by
  induction h with
  | refl => rfl
  | step h ih =>
    show expandOnce edges (reachIter edges _ S) = reachIter edges j S
    rw [ih]
    exact hfix

theorem exists_reach_fixpoint (edges : DepEdges) (S : Finset String)
    (hS : S ⊆ allNodes edges) :
    ∃ j ≤ (allNodes edges).card,
      reachIter edges (j + 1) S = reachIter edges j S := by
  by_contra hcon
  push_neg at hcon
  have hgrow : ∀ k, k ≤ (allNodes edges).card + 1 →
      k ≤ (reachIter edges k S).card := by
    intro k
    induction k with
    | zero => intro _; exact Nat.zero_le _
    | succ k ih =>
      intro hk
      have hk' : k ≤ (allNodes edges).card := Nat.le_of_succ_le_succ hk
      have hcard : k ≤ (reachIter edges k S).card :=
        ih (Nat.le_succ_of_le hk')
      have hne : reachIter edges (k + 1) S ≠ reachIter edges k S :=
        hcon k hk'
      have hss : reachIter edges k S ⊂ reachIter edges (k + 1) S := by
        rw [Finset.ssubset_iff_subset_ne]
        exact ⟨reachIter_subset_succ edges k S, fun hc => hne hc.symm⟩
      have := Finset.card_lt_card hss
      omega
  have h1 := hgrow ((allNodes edges).card + 1) (Nat.le_refl _)
  have h2 := Finset.card_le_card
    (reachIter_subset_allNodes edges ((allNodes edges).card + 1) S hS)
  omega

theorem expandOnce_reachableFrom (edges : DepEdges) (v : String) :
    expandOnce edges (reachableFrom edges v) = reachableFrom edges v := by
  obtain ⟨j, hj, hfix⟩ := exists_reach_fixpoint edges
    (edgeTargets edges v).toFinset (targets_subset_allNodes edges v)
  unfold reachableFrom
  have hN := reachIter_eq_of_fix edges j (allNodes edges).card
    (edgeTargets edges v).toFinset hfix hj
  have hN1 := reachIter_eq_of_fix edges j ((allNodes edges).card + 1)
    (edgeTargets edges v).toFinset hfix (Nat.le_succ_of_le hj)
  calc expandOnce edges
        (reachIter edges (allNodes edges).card (edgeTargets edges v).toFinset)
      = reachIter edges ((allNodes edges).card + 1)
          (edgeTargets edges v).toFinset := rfl
    _ = reachIter edges j (edgeTargets edges v).toFinset := hN1
    _ = reachIter edges (allNodes edges).card
          (edgeTargets edges v).toFinset := hN.symm

theorem reachIter_sound (edges : DepEdges) (v : String) (k : Nat)
    (S : Finset String)
    (hS : ∀ u ∈ S, Relation.TransGen (EdgeRel edges) v u) :
    ∀ w ∈ reachIter edges k S, Relation.TransGen (EdgeRel edges) v w := by
  induction k with
  | zero => exact hS
  | succ k ih =>
    intro w hw
    rw [show reachIter edges (k + 1) S = expandOnce edges (reachIter edges k S)
      from rfl, expandOnce, Finset.mem_union] at hw
    cases hw with
    | inl h => exact ih w h
    | inr h =>
      obtain ⟨a, ha, hw⟩ := Finset.mem_biUnion.mp h
      rw [List.mem_toFinset, mem_edgeTargets] at hw
      exact Relation.TransGen.tail (ih a ha) hw

theorem reachableFrom_complete (edges : DepEdges) (v w : String)
    (h : Relation.TransGen (EdgeRel edges) v w) :
    w ∈ reachableFrom edges v := by
  induction h with
  | single hvw =>
    apply reachIter_mono edges 0 (allNodes edges).card (Nat.zero_le _)
    rw [show reachIter edges 0 (edgeTargets edges v).toFinset =
      (edgeTargets edges v).toFinset from rfl, List.mem_toFinset,
      mem_edgeTargets]
    exact hvw
  | tail _ hedge ih =>
    rw [← expandOnce_reachableFrom edges v]
    rw [expandOnce, Finset.mem_union]
    right
    refine Finset.mem_biUnion.mpr ⟨_, ih, ?_⟩
    rw [List.mem_toFinset, mem_edgeTargets]
    exact hedge

theorem transGen_exists_head {α : Type} (R : α → α → Prop) (a b : α)
    (h : Relation.TransGen R a b) : ∃ c, R a c := by
  induction h with
  | single h => exact ⟨_, h⟩
  | tail _ _ ih => exact ih

theorem hasCyclicDependency_iff (edges : DepEdges) :
    hasCyclicDependency edges = true ↔ HasCycle edges := by
  constructor
  · intro h
    obtain ⟨v, _, hdec⟩ := List.any_eq_true.mp h
    rw [decide_eq_true_eq] at hdec
    refine ⟨v, ?_⟩
    refine reachIter_sound edges v (allNodes edges).card
      (edgeTargets edges v).toFinset ?_ v hdec
    intro u hu
    rw [List.mem_toFinset, mem_edgeTargets] at hu
    exact Relation.TransGen.single hu
  · rintro ⟨v, hT⟩
    obtain ⟨c, hc⟩ := transGen_exists_head (EdgeRel edges) v v hT
    refine List.any_eq_true.mpr ⟨v, List.mem_map.mpr ⟨(v, c), hc, rfl⟩, ?_⟩
    rw [decide_eq_true_eq]
    exact reachableFrom_complete edges v v hT

/-- C5: a schema whose dependentKeys edges contain a cycle is rejected at
build time with CyclicDependencyError, before any session starts; a schema
with acyclic dependentKeys edges builds without raising this error. -/
theorem C5_cycle_detection (edges : DepEdges) :
    (buildDependencyGraph edges = .error .CyclicDependencyError ↔
      HasCycle edges) ∧
    (¬ HasCycle edges → buildDependencyGraph edges = .ok edges) := by
  constructor
  · constructor
    · intro h
      by_cases hc : hasCyclicDependency edges = true
      · exact (hasCyclicDependency_iff edges).mp hc
      · rw [Bool.not_eq_true] at hc
        rw [buildDependencyGraph, hc] at h
        simp at h
    · intro h
      rw [buildDependencyGraph, (hasCyclicDependency_iff edges).mpr h]
      rfl
  · intro h
    have hc : hasCyclicDependency edges = false := by
      rw [← Bool.not_eq_true]
      intro hcon
      exact h ((hasCyclicDependency_iff edges).mp hcon)
    rw [buildDependencyGraph, hc]
    rfl

theorem C5_cycle_detection_witness :
    buildDependencyGraph [("a", "b"), ("b", "a")] =
      .error .CyclicDependencyError :=
  (C5_cycle_detection [("a", "b"), ("b", "a")]).1.mpr
    ⟨"a", Relation.TransGen.tail
      (Relation.TransGen.single
        (show EdgeRel [("a", "b"), ("b", "a")] "a" "b" by simp [EdgeRel]))
      (show EdgeRel [("a", "b"), ("b", "a")] "b" "a" by simp [EdgeRel])⟩

theorem skipWs_not_ws (c : Char) (cs : List Char) (h : wsChar c = false) :
    skipWs (c :: cs) = c :: cs := by
  simp [skipWs, h]

theorem skipWs_cons_ws (c : Char) (cs : List Char) (h : wsChar c = true) :
    skipWs (c :: cs) = skipWs cs := by
  simp [skipWs, h]

theorem skipWs_length (l : List Char) : (skipWs l).length ≤ l.length := by
  induction l with
  | nil => exact Nat.le_refl _
  | cons c cs ih =>
    by_cases h : wsChar c = true
    · rw [skipWs_cons_ws c cs h]
      exact Nat.le_succ_of_le ih
    · rw [skipWs_not_ws c cs (by simpa using h)]

theorem skipWs_pad_append (n : Nat) (l : List Char) :
    skipWs (padChars n ++ l) = skipWs l := by
  induction n with
  | zero => rfl
  | succ n ih =>
    show skipWs (' ' :: (padChars n ++ l)) = skipWs l
    rw [skipWs_cons_ws _ _ (by decide)]
    exact ih

theorem skipWs_newline_pad (n : Nat) (l : List Char) :
    skipWs ('\n' :: (padChars n ++ l)) = skipWs l := by
  rw [skipWs_cons_ws _ _ (by decide)]
  exact skipWs_pad_append n l

theorem stripTok_append (ts rest : List Char) :
    stripTok ts (ts ++ rest) = some rest := by
  induction ts with
  | nil => rfl
  | cons t ts ih => simp [stripTok, ih]

theorem takeWhile_all_append (p : Char → Bool) (xs rest : List Char)
    (hall : ∀ x ∈ xs, p x = true)
    (hrest : rest = [] ∨ ∃ c cs, rest = c :: cs ∧ p c = false) :
    (xs ++ rest).takeWhile p = xs ∧ (xs ++ rest).dropWhile p = rest := by
  induction xs with
  | nil =>
    rcases hrest with h | ⟨c, cs, hr, hc⟩
    · subst h
      exact ⟨rfl, rfl⟩
    · subst hr
      constructor
      · simp [List.takeWhile, hc]
      · simp [List.dropWhile, hc]
  | cons x xs ih =>
    have hx : p x = true := hall x (List.mem_cons_self x xs)
    have hih := ih (fun y hy => hall y (List.mem_cons_of_mem x hy))
    constructor
    · simp [List.takeWhile, hx, hih.1]
    · simp [List.dropWhile, hx, hih.2]

theorem digitChar_toNat (d : Nat) (h : d < 10) :
    (digitChar d).toNat = 48 + d := by
  interval_cases d <;> decide

theorem digitChar_isDigit (d : Nat) (h : d < 10) :
    (digitChar d).isDigit = true := by
  interval_cases d <;> decide

theorem digitChar_ne_zero (d : Nat) (h1 : 1 ≤ d) (h2 : d < 10) :
    digitChar d ≠ '0' := by
  interval_cases d <;> decide

theorem digit_facts (c : Char) (h : c.isDigit = true) :
    wsChar c = false ∧ c ≠ ']' ∧ c ≠ '\x7d' ∧ c ≠ ',' ∧ c ≠ ':' ∧
    c ≠ 'n' ∧ c ≠ 't' ∧ c ≠ 'f' ∧ c ≠ '"' ∧ c ≠ '[' ∧ c ≠ '\x7b' := by
  refine ⟨?_, ?_, ?_, ?_, ?_, ?_, ?_, ?_, ?_, ?_, ?_⟩ <;>
    first
      | (intro he; subst he; simp at h)
      | (by_cases hw : wsChar c = true
         · simp [wsChar] at hw
           rcases hw with ((h1 | h1) | h1) | h1 <;> subst h1 <;> simp at h
         · simpa using hw)

theorem natDigits_ne_nil (n : Nat) : natDigits n ≠ [] := by
  rw [natDigits]
  split
  · simp
  · simp

theorem natDigits_all_digits (n : Nat) :
    ∀ c ∈ natDigits n, c.isDigit = true := by
  induction n using Nat.strong_induction_on with
  | _ n ih =>
    rw [natDigits]
    split
    · intro c hc
      rw [List.mem_singleton] at hc
      subst hc
      exact digitChar_isDigit n (by omega)
    · intro c hc
      rw [List.mem_append] at hc
      cases hc with
      | inl h =>
        exact ih (n / 10) (Nat.div_lt_self (by omega) (by omega)) c h
      | inr h =>
        rw [List.mem_singleton] at h
        subst h
        exact digitChar_isDigit _ (Nat.mod_lt _ (by omega))

theorem headD_append_of_ne_nil (l l' : List Char) (x : Char) (h : l ≠ []) :
    (l ++ l').headD x = l.headD x := by
  cases l with
  | nil => exact absurd rfl h
  | cons a as => rfl

theorem natDigits_headD_ne_zero (n : Nat) (h : 1 ≤ n) :
    (natDigits n).headD 'x' ≠ '0' := by
  induction n using Nat.strong_induction_on with
  | _ n ih =>
    rw [natDigits]
    split
    · exact digitChar_ne_zero n h (by omega)
    · rw [headD_append_of_ne_nil _ _ _ (natDigits_ne_nil _)]
      exact ih (n / 10) (Nat.div_lt_self (by omega) (by omega))
        (by omega)

theorem natDigits_no_leading_zero (n : Nat) :
    ¬ (1 < (natDigits n).length ∧ (natDigits n).headD 'x' = '0') := by
  by_cases hn : n = 0
  · subst hn
    rw [natDigits]
    intro h
    simp at h
  · intro h
    exact natDigits_headD_ne_zero n (by omega) h.2

theorem digitsToNat_append_last (acc : Nat) (xs : List Char) (c : Char) :
    digitsToNat acc (xs ++ [c]) = (digitsToNat acc xs) * 10 + (c.toNat - 48) := by
  induction xs generalizing acc with
  | nil => rfl
  | cons x xs ih => exact ih (acc * 10 + (x.toNat - 48))

theorem digitsToNat_natDigits_general (n acc : Nat) :
    digitsToNat acc (natDigits n) = acc * 10 ^ (natDigits n).length + n := by
  induction n using Nat.strong_induction_on generalizing acc with
  | _ n ih =>
    rw [natDigits]
    split
    · show digitsToNat acc [digitChar n] = acc * 10 ^ 1 + n
      show digitsToNat (acc * 10 + ((digitChar n).toNat - 48)) [] = _
      show acc * 10 + ((digitChar n).toNat - 48) = acc * 10 ^ 1 + n
      rw [digitChar_toNat n (by omega)]
      omega
    · rw [digitsToNat_append_last, List.length_append,
        ih (n / 10) (Nat.div_lt_self (by omega) (by omega)) acc,
        digitChar_toNat _ (Nat.mod_lt _ (by omega))]
      have hp : 10 ^ ((natDigits (n / 10)).length + [digitChar (n % 10)].length) =
          10 ^ (natDigits (n / 10)).length * 10 := by
        simp [Nat.pow_succ]
      rw [hp]
      have := Nat.div_add_mod n 10
      ring_nf
      omega

theorem digitsToNat_natDigits (n : Nat) : digitsToNat 0 (natDigits n) = n := by
  have := digitsToNat_natDigits_general n 0
  omega

theorem headNotDigit_iff (rest : List Char) : headNotDigit rest ↔
    (rest = [] ∨ ∃ c cs, rest = c :: cs ∧ c.isDigit = false) := by
  cases rest <;> simp [headNotDigit]

theorem parseNatPart_natDigits (n : Nat) (rest : List Char)
    (hrest : headNotDigit rest) :
    parseNatPart (natDigits n ++ rest) = some (n, rest) := by
  have hsplit := takeWhile_all_append Char.isDigit (natDigits n) rest
    (natDigits_all_digits n)
    (by
      rw [headNotDigit_iff] at hrest
      rcases hrest with h | ⟨c, cs, hr, hc⟩
      · exact Or.inl h
      · exact Or.inr ⟨c, cs, hr, hc⟩)
  have hne := natDigits_ne_nil n
  have hempty : (natDigits n).isEmpty = false := by
    cases hnd : natDigits n with
    | nil => exact absurd hnd hne
    | cons a as => rfl
  simp only [parseNatPart, hsplit.1, hsplit.2, hempty, Bool.false_eq_true,
    if_false]
  rw [if_neg (natDigits_no_leading_zero n), digitsToNat_natDigits]

theorem natDigits_cons (n : Nat) :
    ∃ d ds, natDigits n = d :: ds ∧ d.isDigit = true := by
  obtain ⟨d, ds, hd⟩ : ∃ d ds, natDigits n = d :: ds := by
    cases hnd : natDigits n with
    | nil => exact absurd hnd (natDigits_ne_nil n)
    | cons a as => exact ⟨a, as, rfl⟩
  refine ⟨d, ds, hd, ?_⟩
  apply natDigits_all_digits n
  rw [hd]
  exact List.mem_cons_self d ds

theorem isDigit_ne_minus (d : Char) (h : d.isDigit = true) : d ≠ '-' := by
  intro he
  subst he
  simp at h

theorem intChars_head (n : Int) :
    ∃ d ds, intChars n = d :: ds ∧ (d = '-' ∨ d.isDigit = true) := by
  unfold intChars
  by_cases hn : n < 0
  · rw [if_pos hn]
    exact ⟨'-', _, rfl, Or.inl rfl⟩
  · rw [if_neg hn]
    obtain ⟨d, ds, hd, hdd⟩ := natDigits_cons n.toNat
    exact ⟨d, ds, hd, Or.inr hdd⟩

theorem renderNum_fin_head (m e : Int) :
    ∃ d ds, renderNum (.fin m e) = d :: ds ∧ (d = '-' ∨ d.isDigit = true) := by
  rw [renderNum]
  by_cases he : 0 ≤ e
  · rw [if_pos he]
    exact intChars_head _
  · rw [if_neg he]
    obtain ⟨d, ds, hd, hf⟩ := intChars_head m
    refine ⟨d, ds ++ 'e' :: intChars e, ?_, hf⟩
    rw [hd]
    rfl

theorem parseDigitRun_natDigits (n : Nat) (rest : List Char)
    (hrest : headNotDigit rest) :
    parseDigitRun (natDigits n ++ rest) = some (natDigits n, rest) := by
  have hsplit := takeWhile_all_append Char.isDigit (natDigits n) rest
    (natDigits_all_digits n)
    (by
      rw [headNotDigit_iff] at hrest
      rcases hrest with h | ⟨c, cs, hr, hc⟩
      · exact Or.inl h
      · exact Or.inr ⟨c, cs, hr, hc⟩)
  have hempty : (natDigits n).isEmpty = false := by
    cases hnd : natDigits n with
    | nil => exact absurd hnd (natDigits_ne_nil n)
    | cons a as => rfl
  simp only [parseDigitRun, hsplit.1, hsplit.2, hempty, Bool.false_eq_true,
    if_false]

theorem stripZeros_no_dvd (f : Nat) (m e : Int) (hnd : ¬ (10 : Int) ∣ m) :
    stripZeros f m e = (m, e) := by
  cases f with
  | zero => rfl
  | succ f =>
    rw [stripZeros, if_neg]
    intro h
    exact hnd (Int.dvd_of_emod_eq_zero h.1)

theorem stripZeros_strips (k : Nat) :
    ∀ (f : Nat) (m e : Int), m ≠ 0 → ¬ (10 : Int) ∣ m → k ≤ f →
    stripZeros f (m * 10 ^ k) e = (m, e + k) := by
  induction k with
  | zero =>
    intro f m e hm hnd _
    simp only [pow_zero, mul_one, Nat.cast_zero, add_zero]
    exact stripZeros_no_dvd f m e hnd
  | succ k ih =>
    intro f m e hm hnd hkf
    obtain ⟨g, rfl⟩ : ∃ g, f = g + 1 := ⟨f - 1, by omega⟩
    rw [stripZeros, if_pos]
    · have hdiv : m * 10 ^ (k + 1) / 10 = m * 10 ^ k := by
        rw [pow_succ, ← mul_assoc]
        exact Int.mul_ediv_cancel _ (by norm_num)
      rw [hdiv, ih g m (e + 1) hm hnd (by omega), Prod.mk.injEq]
      refine ⟨rfl, by push_cast; ring⟩
    · refine ⟨Int.emod_eq_zero_of_dvd ⟨m * 10 ^ k, by ring⟩, ?_⟩
      exact mul_ne_zero hm (pow_ne_zero _ (by norm_num))

theorem stripZeros_result (f : Nat) :
    ∀ (m e : Int), m ≠ 0 → (∀ k : Nat, (10 : Int) ^ k ∣ m → k ≤ f) →
    (stripZeros f m e).1 ≠ 0 ∧ ¬ (10 : Int) ∣ (stripZeros f m e).1 := by
  induction f with
  | zero =>
    intro m e hm hk
    refine ⟨hm, ?_⟩
    intro hdvd
    have := hk 1 (by simpa using hdvd)
    omega
  | succ f ih =>
    intro m e hm hk
    rw [stripZeros]
    by_cases hc : m % 10 = 0 ∧ m ≠ 0
    · rw [if_pos hc]
      obtain ⟨c, hcm⟩ := Int.dvd_of_emod_eq_zero hc.1
      have hc0 : c ≠ 0 := by
        intro h
        rw [h, mul_zero] at hcm
        exact hm hcm
      have hmc : m / 10 = c := by
        rw [hcm]
        exact Int.mul_ediv_cancel_left _ (by norm_num)
      rw [hmc]
      apply ih c (e + 1) hc0
      intro k hkc
      have h10 : (10 : Int) ^ (k + 1) ∣ m := by
        rw [hcm, pow_succ, mul_comm (10 : Int) c]
        exact mul_dvd_mul_right hkc 10
      have := hk (k + 1) h10
      omega
    · rw [if_neg hc]
      refine ⟨hm, ?_⟩
      intro hdvd
      exact hc ⟨Int.emod_eq_zero_of_dvd hdvd, hm⟩

theorem dvd_pow_le_natAbs (m : Int) (hm : m ≠ 0) (k : Nat)
    (h : (10 : Int) ^ k ∣ m) : k ≤ m.natAbs := by
  have h1 : (10 : Nat) ^ k ∣ m.natAbs := by
    have h0 := Int.natAbs_dvd_natAbs.mpr h
    rw [Int.natAbs_pow] at h0
    exact h0
  have h2 : 10 ^ k ≤ m.natAbs :=
    Nat.le_of_dvd (Int.natAbs_pos.mpr hm) h1
  have h3 : k < 10 ^ k := Nat.lt_pow_self (by norm_num) k
  omega

theorem normNum_canon (m e : Int) : JNumCanon (normNum m e) := by
  unfold normNum
  by_cases hm : m = 0
  · rw [if_pos hm]
    refine ⟨fun _ => rfl, fun h => absurd rfl h, ?_⟩
    rw [overflowAt, if_pos (le_refl (0 : Int))]
    have hz : ((0 : Int).natAbs * 10 ^ (0 : Int).toNat) = 0 := by simp
    rw [hz, decide_eq_false_iff_not]
    exact Nat.not_le.mpr (Nat.two_pow_pos 1024)
  · rw [if_neg hm]
    have hres := stripZeros_result m.natAbs m e hm
      (fun k hk => dvd_pow_le_natAbs m hm k hk)
    by_cases hov : overflowAt (stripZeros m.natAbs m e).1
        (stripZeros m.natAbs m e).2 = true
    · rw [if_pos hov]
      by_cases hpos : 0 < m
      · rw [if_pos hpos]
        trivial
      · rw [if_neg hpos]
        trivial
    · rw [if_neg hov]
      rw [Bool.not_eq_true] at hov
      exact ⟨fun h => absurd h hres.1, fun _ => hres.2, hov⟩

theorem signedNatAbs (N : Int) :
    (if decide (N < 0) = true then -((N.natAbs : Int)) else ((N.natAbs : Int)))
      = N := by
  by_cases hn : N < 0
  · rw [if_pos (by simp [hn])]
    omega
  · rw [if_neg (by simp [hn])]
    omega

theorem normNum_self_nonneg (m e : Int) (hc : JNumCanon (.fin m e))
    (he : 0 ≤ e) : normNum (m * 10 ^ e.toNat) 0 = .fin m e := by
  obtain ⟨hz, hnd, hov⟩ := hc
  by_cases hm : m = 0
  · subst hm
    have he0 : e = 0 := hz rfl
    subst he0
    simp [normNum]
  · have hMne : m * 10 ^ e.toNat ≠ 0 :=
      mul_ne_zero hm (pow_ne_zero _ (by norm_num))
    rw [normNum, if_neg hMne]
    have hstrip : stripZeros (m * 10 ^ e.toNat).natAbs (m * 10 ^ e.toNat) 0 =
        (m, e) := by
      have h1 : (m * 10 ^ e.toNat).natAbs = m.natAbs * 10 ^ e.toNat := by
        rw [Int.natAbs_mul]
        congr 1
        simp [Int.natAbs_pow]
      have h2 : 1 ≤ m.natAbs := Int.natAbs_pos.mpr hm
      have h3 : e.toNat < 10 ^ e.toNat := Nat.lt_pow_self (by norm_num) _
      have hfuel : e.toNat ≤ (m * 10 ^ e.toNat).natAbs := by
        rw [h1]
        have h4 : 1 * 10 ^ e.toNat ≤ m.natAbs * 10 ^ e.toNat :=
          Nat.mul_le_mul_right _ h2
        omega
      rw [stripZeros_strips e.toNat _ m 0 hm (hnd hm) hfuel, Prod.mk.injEq]
      exact ⟨rfl, by rw [zero_add, Int.toNat_of_nonneg he]⟩
    simp only [hstrip]
    rw [if_neg]
    rw [hov]
    simp

theorem normNum_self_neg (m e : Int) (hc : JNumCanon (.fin m e))
    (he : e < 0) : normNum m e = .fin m e := by
  obtain ⟨hz, hnd, hov⟩ := hc
  have hm : m ≠ 0 := by
    intro h
    have := hz h
    omega
  rw [normNum, if_neg hm, stripZeros_no_dvd _ _ _ (hnd hm)]
  rw [if_neg]
  rw [hov]
  simp

theorem parseFracPart_boundary (c : List Char) (h : numBoundary c) :
    parseFracPart c = some ([], c) := by
  cases c with
  | nil => rfl
  | cons d cs =>
    obtain ⟨_, hdot, _, _⟩ := h
    rw [parseFracPart, if_neg hdot]

theorem parseExpPart_boundary (c : List Char) (h : numBoundary c) :
    parseExpPart c = some (0, c) := by
  cases c with
  | nil => rfl
  | cons d cs =>
    obtain ⟨_, _, he, hE⟩ := h
    rw [parseExpPart.eq_def]
    simp only
    rw [if_neg]
    rintro (h | h)
    · exact he h
    · exact hE h

theorem parseNumber_canon (c : List Char) (q : JNumber) (r : List Char)
    (h : parseNumber c = some (q, r)) : JNumCanon q := by
  simp only [parseNumber] at h
  cases hnp : parseNatPart (parseSignSplit c).2 with
  | none =>
    rw [hnp] at h
    cases h
  | some ir =>
    rw [hnp] at h
    obtain ⟨i, r₁⟩ := ir
    simp only at h
    cases hfp : parseFracPart r₁ with
    | none =>
      rw [hfp] at h
      cases h
    | some fr =>
      rw [hfp] at h
      obtain ⟨fds, r₂⟩ := fr
      simp only at h
      cases hep : parseExpPart r₂ with
      | none =>
        rw [hep] at h
        cases h
      | some er =>
        rw [hep] at h
        obtain ⟨ex, r₃⟩ := er
        simp only at h
        cases h
        exact normNum_canon _ _

theorem parseSignSplit_intChars (N : Int) (rest : List Char) :
    parseSignSplit (intChars N ++ rest) =
      (decide (N < 0), natDigits N.natAbs ++ rest) := by
  unfold intChars
  by_cases hn : N < 0
  · rw [if_pos hn]
    show parseSignSplit ('-' :: (natDigits (-N).toNat ++ rest)) = _
    rw [parseSignSplit, if_pos rfl, Prod.mk.injEq]
    refine ⟨by simp [hn], ?_⟩
    have hna : (-N).toNat = N.natAbs := by omega
    rw [hna]
  · rw [if_neg hn]
    obtain ⟨d, ds, hd, hdd⟩ := natDigits_cons N.toNat
    rw [hd]
    show parseSignSplit (d :: (ds ++ rest)) = _
    rw [parseSignSplit, if_neg (isDigit_ne_minus d hdd), Prod.mk.injEq]
    refine ⟨by simp [hn], ?_⟩
    have hna : N.natAbs = N.toNat := by omega
    rw [hna, hd]
    rfl

theorem parseNumber_renderNum (q : JNumber) (hc : JNumCanon q)
    (hfin : q.isFinite = true) (rest : List Char) (hrest : numBoundary rest) :
    parseNumber (renderNum q ++ rest) = some (q, rest) := by
  cases q with
  | inf => simp [JNumber.isFinite] at hfin
  | neginf => simp [JNumber.isFinite] at hfin
  | fin m e =>
    obtain ⟨hz, hnd, hov⟩ := hc
    have hhead : headNotDigit rest := by
      cases rest with
      | nil => trivial
      | cons d cs => exact hrest.1
    rw [renderNum]
    by_cases he : 0 ≤ e
    · rw [if_pos he]
      rw [parseNumber, parseSignSplit_intChars]
      simp only
      rw [parseNatPart_natDigits _ _ hhead]
      simp only
      rw [parseFracPart_boundary rest hrest]
      simp only
      rw [parseExpPart_boundary rest hrest]
      simp only [List.length_nil, pow_zero, mul_one, Nat.cast_zero, sub_zero]
      have hds : digitsToNat 0 ([] : List Char) = 0 := rfl
      rw [hds, Nat.add_zero, signedNatAbs,
        normNum_self_nonneg m e ⟨hz, hnd, hov⟩ he]
    · rw [if_neg he]
      have he' : e < 0 := by omega
      have hie : intChars e = '-' :: natDigits (-e).toNat := by
        rw [intChars, if_pos he']
      have hassoc : (intChars m ++ 'e' :: intChars e) ++ rest =
          intChars m ++ ('e' :: (intChars e ++ rest)) := by
        simp [List.append_assoc]
      have hEhead : headNotDigit ('e' :: (intChars e ++ rest)) := by
        show Char.isDigit 'e' = false
        decide
      rw [hassoc, parseNumber, parseSignSplit_intChars]
      simp only
      rw [parseNatPart_natDigits _ _ hEhead]
      simp only
      rw [parseFracPart, if_neg (show ('e' : Char) ≠ '.' from by decide)]
      simp only
      rw [parseExpPart.eq_def]
      simp only
      rw [if_pos (Or.inl True.intro)]
      rw [hie, List.cons_append]
      simp only
      rw [if_pos True.intro]
      rw [parseDigitRun_natDigits _ _ hhead]
      simp only
      rw [digitsToNat_natDigits]
      have hex : -(((-e).toNat : Int)) - ((List.length ([] : List Char) : Nat) : Int)
          = e := by
        have : (((-e).toNat : Nat) : Int) = -e := Int.toNat_of_nonneg (by omega)
        simp [this]
      rw [hex]
      have hds : digitsToNat 0 ([] : List Char) = 0 := rfl
      rw [hds]
      simp only [List.length_nil, pow_zero, mul_one, Nat.add_zero]
      rw [signedNatAbs, normNum_self_neg m e ⟨hz, hnd, hov⟩ he']

theorem escapeString_cons (c : Char) (cs : List Char) :
    escapeString (c :: cs) = escapeChar c ++ escapeString cs := by
  simp [escapeString]

theorem decodeHex_hexDigitChar (x : Nat) (h : x < 16) :
    decodeHex (hexDigitChar x) = some x := by
  interval_cases x <;> decide

theorem escapeChar_length_pos (c : Char) : 1 ≤ (escapeChar c).length := by
  unfold escapeChar
  split_ifs <;> simp

theorem parseStringBody_escape (s : List Char) :
    ∀ (rest : List Char) (f : Nat),
      (escapeString s ++ '"' :: rest).length ≤ f →
      parseStringBody f (escapeString s ++ '"' :: rest) = some (s, rest) := by
  induction s with
  | nil =>
    intro rest f hf
    show parseStringBody f ('"' :: rest) = some ([], rest)
    simp at hf
    obtain ⟨g, rfl⟩ : ∃ g, f = g + 1 := ⟨f - 1, by omega⟩
    simp [parseStringBody]
  | cons c cs ih =>
    intro rest f hf
    rw [escapeString_cons, List.append_assoc] at hf ⊢
    have hlen : (escapeChar c).length +
        ((escapeString cs ++ '"' :: rest).length) ≤ f := by
      rw [← List.length_append]
      exact hf
    have hec1 := escapeChar_length_pos c
    by_cases h1 : c = '"'
    · subst h1
      obtain ⟨g, rfl⟩ : ∃ g, f = g + 1 := ⟨f - 1, by omega⟩
      have hg : (escapeString cs ++ '"' :: rest).length ≤ g := by
        have : (escapeChar '"').length = 2 := by decide
        omega
      simp [escapeChar, parseStringBody, decodeEscape, ih _ _ hg]
    · by_cases h2 : c = '\\'
      · subst h2
        obtain ⟨g, rfl⟩ : ∃ g, f = g + 1 := ⟨f - 1, by omega⟩
        have hg : (escapeString cs ++ '"' :: rest).length ≤ g := by
          have : (escapeChar '\\').length = 2 := by decide
          omega
        simp [escapeChar, parseStringBody, decodeEscape, ih _ _ hg]
      · by_cases h3 : c = '\x08'
        · subst h3
          obtain ⟨g, rfl⟩ : ∃ g, f = g + 1 := ⟨f - 1, by omega⟩
          have hg : (escapeString cs ++ '"' :: rest).length ≤ g := by
            have : (escapeChar '\x08').length = 2 := by decide
            omega
          simp [escapeChar, parseStringBody, decodeEscape, ih _ _ hg]
        · by_cases h4 : c = '\x0c'
          · subst h4
            obtain ⟨g, rfl⟩ : ∃ g, f = g + 1 := ⟨f - 1, by omega⟩
            have hg : (escapeString cs ++ '"' :: rest).length ≤ g := by
              have : (escapeChar '\x0c').length = 2 := by decide
              omega
            simp [escapeChar, parseStringBody, decodeEscape, ih _ _ hg]
          · by_cases h5 : c = '\n'
            · subst h5
              obtain ⟨g, rfl⟩ : ∃ g, f = g + 1 := ⟨f - 1, by omega⟩
              have hg : (escapeString cs ++ '"' :: rest).length ≤ g := by
                have : (escapeChar '\n').length = 2 := by decide
                omega
              simp [escapeChar, parseStringBody, decodeEscape, ih _ _ hg]
            · by_cases h6 : c = '\r'
              · subst h6
                obtain ⟨g, rfl⟩ : ∃ g, f = g + 1 := ⟨f - 1, by omega⟩
                have hg : (escapeString cs ++ '"' :: rest).length ≤ g := by
                  have : (escapeChar '\r').length = 2 := by decide
                  omega
                simp [escapeChar, parseStringBody, decodeEscape, ih _ _ hg]
              · by_cases h7 : c = '\t'
                · subst h7
                  obtain ⟨g, rfl⟩ : ∃ g, f = g + 1 := ⟨f - 1, by omega⟩
                  have hg : (escapeString cs ++ '"' :: rest).length ≤ g := by
                    have : (escapeChar '\t').length = 2 := by decide
                    omega
                  simp [escapeChar, parseStringBody, decodeEscape, ih _ _ hg]
                · by_cases h8 : c.toNat < 32
                  · have hec : escapeChar c =
                        ['\\', 'u', '0', '0', hexDigitChar (c.toNat / 16),
                          hexDigitChar (c.toNat % 16)] := by
                      simp [escapeChar, h1, h2, h3, h4, h5, h6, h7, h8]
                    have h6len : (escapeChar c).length = 6 := by
                      rw [hec]
                      rfl
                    obtain ⟨g, rfl⟩ : ∃ g, f = g + 1 := ⟨f - 1, by omega⟩
                    have hg : (escapeString cs ++ '"' :: rest).length ≤ g := by
                      omega
                    rw [hec]
                    have hdiv : c.toNat / 16 < 16 := by omega
                    have hmod : c.toNat % 16 < 16 := by omega
                    have hdz : decodeHex '0' = some 0 := by decide
                    simp [parseStringBody, hdz,
                      decodeHex_hexDigitChar _ hdiv,
                      decodeHex_hexDigitChar _ hmod, ih _ _ hg]
                    have hdm : c.toNat / 16 * 16 + c.toNat % 16 = c.toNat := by
                      omega
                    rw [hdm]
                    exact Char.ofNat_toNat c
                  · have hec : escapeChar c = [c] := by
                      simp [escapeChar, h1, h2, h3, h4, h5, h6, h7, h8]
                    have h1len : (escapeChar c).length = 1 := by
                      rw [hec]
                      rfl
                    obtain ⟨g, rfl⟩ : ∃ g, f = g + 1 := ⟨f - 1, by omega⟩
                    have hg : (escapeString cs ++ '"' :: rest).length ≤ g := by
                      omega
                    rw [hec]
                    simp [parseStringBody, h1, h2, h8, ih _ _ hg]

theorem renderJson_head (ind : Nat) (v : Json) :
    ∃ hd tl, renderJson ind v = hd :: tl ∧ wsChar hd = false ∧
      hd ≠ ']' ∧ hd ≠ '\x7d' := by
  cases v with
  | null =>
    exact ⟨'n', ['u', 'l', 'l'], by simp [renderJson], by decide, by decide,
      by decide⟩
  | bool b =>
    cases b with
    | true =>
      exact ⟨'t', ['r', 'u', 'e'], by simp [renderJson], by decide, by decide,
        by decide⟩
    | false =>
      exact ⟨'f', ['a', 'l', 's', 'e'], by simp [renderJson], by decide,
        by decide, by decide⟩
  | num q =>
    have hr : renderJson ind (.num q) = renderNum q := by simp [renderJson]
    rw [hr]
    cases q with
    | fin m e =>
      obtain ⟨d, ds, hd, hfacts⟩ := renderNum_fin_head m e
      have h1 : wsChar d = false := by
        rcases hfacts with h | h
        · subst h; decide
        · exact (digit_facts d h).1
      have h2 : d ≠ ']' := by
        rcases hfacts with h | h
        · subst h; decide
        · exact (digit_facts d h).2.1
      have h3 : d ≠ '\x7d' := by
        rcases hfacts with h | h
        · subst h; decide
        · exact (digit_facts d h).2.2.1
      exact ⟨d, ds, hd, h1, h2, h3⟩
    | inf =>
      exact ⟨'n', ['u', 'l', 'l'], by simp [renderNum], by decide, by decide,
        by decide⟩
    | neginf =>
      exact ⟨'n', ['u', 'l', 'l'], by simp [renderNum], by decide, by decide,
        by decide⟩
  | str s =>
    exact ⟨'"', escapeString s.data ++ ['"'],
      by simp [renderJson, quoteString], by decide, by decide, by decide⟩
  | arr xs =>
    cases xs with
    | nil => exact ⟨'[', [']'], by simp [renderJson], by decide, by decide,
        by decide⟩
    | cons x xs =>
      exact ⟨'[', '\n' :: (padChars (ind + 2) ++ (renderJson (ind + 2) x ++
        (renderArrTail (ind + 2) xs ++ '\n' :: (padChars ind ++ [']'])))),
        by simp [renderJson], by decide, by decide, by decide⟩
  | obj ms =>
    cases ms with
    | nil => exact ⟨'\x7b', ['\x7d'], by simp [renderJson], by decide,
        by decide, by decide⟩
    | cons m ms =>
      exact ⟨'\x7b', '\n' :: (padChars (ind + 2) ++ (renderMember (ind + 2) m ++
        (renderObjTail (ind + 2) ms ++ '\n' :: (padChars ind ++ ['\x7d'])))),
        by simp [renderJson], by decide, by decide, by decide⟩

theorem renderJson_length_pos (ind : Nat) (v : Json) :
    1 ≤ (renderJson ind v).length := by
  obtain ⟨hd, tl, he, _, _, _⟩ := renderJson_head ind v
  rw [he]
  simp

theorem skipWs_render_append (ind : Nat) (v : Json) (rest : List Char) :
    skipWs (renderJson ind v ++ rest) = renderJson ind v ++ rest := by
  obtain ⟨hd, tl, he, hws, _, _⟩ := renderJson_head ind v
  rw [he, List.cons_append]
  exact skipWs_not_ws hd (tl ++ rest) hws

theorem parseVal_congr (f : Nat) (c₁ c₂ : List Char)
    (h : skipWs c₁ = skipWs c₂) : parseVal f c₁ = parseVal f c₂ := by
  cases f with
  | zero => rfl
  | succ f => simp only [parseVal, h]

theorem parseArrItems_congr (f : Nat) (c₁ c₂ : List Char) (acc : List Json)
    (h : skipWs c₁ = skipWs c₂) :
    parseArrItems f c₁ acc = parseArrItems f c₂ acc := by
  cases f with
  | zero => rfl
  | succ f => simp only [parseArrItems, parseVal_congr f c₁ c₂ h]

theorem parseObjItems_congr (f : Nat) (c₁ c₂ : List Char)
    (acc : List (String × Json)) (h : skipWs c₁ = skipWs c₂) :
    parseObjItems f c₁ acc = parseObjItems f c₂ acc := by
  cases f with
  | zero => rfl
  | succ f => simp only [parseObjItems, h]

theorem numGuard_cons (v : Json) (c : Char) (cs : List Char)
    (h : c.isDigit = false ∧ c ≠ '.' ∧ c ≠ 'e' ∧ c ≠ 'E') :
    numGuard v (c :: cs) := by
  cases v <;> simp [numGuard, numBoundary, h.1, h.2.1, h.2.2.1, h.2.2.2]

theorem numGuard_nil (v : Json) : numGuard v [] := by
  cases v <;> simp [numGuard, numBoundary]

theorem parseArrItems_render (i2 iEnd : Nat) (ys : List Json) :
    ∀ (y : Json), ValOk y → (∀ z ∈ ys, ValOk z) →
    ∀ (acc : List Json) (c rest : List Char) (f : Nat),
      skipWs c = renderJson i2 y ++ (renderArrTail i2 ys ++
        '\n' :: (padChars iEnd ++ ']' :: rest)) →
      2 * c.length + 2 ≤ f →
      parseArrItems f c acc = some (acc ++ y :: ys, rest) := by
  induction ys with
  | nil =>
    intro y hy _ acc c rest f hc hf
    obtain ⟨g, rfl⟩ : ∃ g, f = g + 1 := ⟨f - 1, by omega⟩
    have hlen : (renderJson i2 y ++ (renderArrTail i2 [] ++
        '\n' :: (padChars iEnd ++ ']' :: rest))).length ≤ c.length := by
      rw [← hc]
      exact skipWs_length c
    have hpv : parseVal g c = some (y, renderArrTail i2 [] ++
        '\n' :: (padChars iEnd ++ ']' :: rest)) := by
      rw [parseVal_congr g c (renderJson i2 y ++ (renderArrTail i2 [] ++
        '\n' :: (padChars iEnd ++ ']' :: rest)))
        (by rw [hc, skipWs_render_append])]
      exact hy i2 _ g (by omega)
        (by
          show numGuard y ([] ++ '\n' :: (padChars iEnd ++ ']' :: rest))
          rw [List.nil_append]
          exact numGuard_cons y '\n' _ (by decide))
    have hsw : skipWs (renderArrTail i2 [] ++
        '\n' :: (padChars iEnd ++ ']' :: rest)) = ']' :: rest := by
      show skipWs ([] ++ '\n' :: (padChars iEnd ++ ']' :: rest)) = _
      rw [List.nil_append, skipWs_newline_pad]
      exact skipWs_not_ws ']' rest (by decide)
    simp only [parseArrItems, hpv, hsw]
    simp
  | cons z zs ih =>
    intro y hy hzs acc c rest f hc hf
    obtain ⟨g, rfl⟩ : ∃ g, f = g + 1 := ⟨f - 1, by omega⟩
    have htail : renderArrTail i2 (z :: zs) =
        ',' :: '\n' :: (padChars i2 ++ (renderJson i2 z ++
          renderArrTail i2 zs)) := by
      simp [renderArrTail]
    rw [htail] at hc
    have hc' : skipWs c = renderJson i2 y ++
        (',' :: '\n' :: (padChars i2 ++ (renderJson i2 z ++
          (renderArrTail i2 zs ++ '\n' :: (padChars iEnd ++ ']' :: rest))))) := by
      rw [hc]
      simp [List.append_assoc]
    have hlen : (renderJson i2 y ++
        (',' :: '\n' :: (padChars i2 ++ (renderJson i2 z ++
          (renderArrTail i2 zs ++
            '\n' :: (padChars iEnd ++ ']' :: rest)))))).length ≤ c.length := by
      rw [← hc']
      exact skipWs_length c
    have hpv : parseVal g c = some (y,
        ',' :: '\n' :: (padChars i2 ++ (renderJson i2 z ++
          (renderArrTail i2 zs ++ '\n' :: (padChars iEnd ++ ']' :: rest))))) := by
      rw [parseVal_congr g c (renderJson i2 y ++
        (',' :: '\n' :: (padChars i2 ++ (renderJson i2 z ++
          (renderArrTail i2 zs ++ '\n' :: (padChars iEnd ++ ']' :: rest))))))
        (by rw [hc', skipWs_render_append])]
      exact hy i2 _ g (by omega) (numGuard_cons y ',' _ (by decide))
    have hswrest : skipWs (',' :: '\n' :: (padChars i2 ++ (renderJson i2 z ++
        (renderArrTail i2 zs ++ '\n' :: (padChars iEnd ++ ']' :: rest))))) =
        ',' :: '\n' :: (padChars i2 ++ (renderJson i2 z ++
          (renderArrTail i2 zs ++ '\n' :: (padChars iEnd ++ ']' :: rest)))) :=
      skipWs_not_ws ',' _ (by decide)
    have hrec : parseArrItems g ('\n' :: (padChars i2 ++ (renderJson i2 z ++
        (renderArrTail i2 zs ++ '\n' :: (padChars iEnd ++ ']' :: rest)))))
        (acc ++ [y]) = some ((acc ++ [y]) ++ z :: zs, rest) := by
      apply ih z (hzs z (List.mem_cons_self z zs))
        (fun w hw => hzs w (List.mem_cons_of_mem z hw))
      · rw [skipWs_newline_pad, skipWs_render_append]
      · have h1 := renderJson_length_pos i2 y
        have h2 : ('\n' :: (padChars i2 ++ (renderJson i2 z ++
            (renderArrTail i2 zs ++
              '\n' :: (padChars iEnd ++ ']' :: rest))))).length + 2 ≤
            (renderJson i2 y ++
              (',' :: '\n' :: (padChars i2 ++ (renderJson i2 z ++
                (renderArrTail i2 zs ++
                  '\n' :: (padChars iEnd ++ ']' :: rest)))))).length := by
          simp [List.length_append]
          omega
        omega
    simp only [parseArrItems, hpv, hswrest]
    simp only [show (',' : Char) = ',' from rfl, if_pos]
    rw [hrec]
    simp

theorem stringMk_data (s : String) : String.mk s.data = s := rfl

theorem keyMem_eq_false (ms : List (String × Json)) (k : String)
    (h : k ∉ ms.map Prod.fst) : keyMem ms k = false := by
  rw [← Bool.not_eq_true, keyMem, List.any_eq_true]
  rintro ⟨m, hm, hk⟩
  rw [beq_iff_eq] at hk
  exact h (List.mem_map.mpr ⟨m, hm, hk⟩)

theorem objInsert_of_new (ms : List (String × Json)) (k : String) (v : Json)
    (h : k ∉ ms.map Prod.fst) : objInsert ms k v = ms ++ [(k, v)] := by
  rw [objInsert, keyMem_eq_false ms k h]
  simp

theorem skipWs_member_append (i2 : Nat) (m : String × Json) (x : List Char) :
    skipWs (renderMember i2 m ++ x) = renderMember i2 m ++ x := by
  rw [show renderMember i2 m = quoteString m.1 ++ ':' :: ' ' :: renderJson i2
    m.2 from by simp [renderMember]]
  rw [quoteString, List.cons_append, List.cons_append]
  exact skipWs_not_ws '"' _ (by decide)

theorem parseObjItems_render (i2 iEnd : Nat) (ms : List (String × Json)) :
    ∀ (k : String) (v : Json), ValOk v → (∀ m ∈ ms, ValOk m.2) →
    ∀ (acc : List (String × Json)) (c rest : List Char) (f : Nat),
      skipWs c = renderMember i2 (k, v) ++ (renderObjTail i2 ms ++
        '\n' :: (padChars iEnd ++ '\x7d' :: rest)) →
      2 * c.length + 2 ≤ f →
      (acc.map Prod.fst ++ (k :: ms.map Prod.fst)).Nodup →
      parseObjItems f c acc = some (acc ++ (k, v) :: ms, rest) := by
  induction ms with
  | nil =>
    intro k v hv _ acc c rest f hc hf hnd
    obtain ⟨g, rfl⟩ : ∃ g, f = g + 1 := ⟨f - 1, by omega⟩
    have hmem : renderMember i2 (k, v) ++ (renderObjTail i2 [] ++
        '\n' :: (padChars iEnd ++ '\x7d' :: rest)) =
        '"' :: (escapeString k.data ++ ('"' :: (':' :: ' ' ::
          (renderJson i2 v ++ '\n' :: (padChars iEnd ++ '\x7d' :: rest))))) := by
      simp [renderMember, renderObjTail, quoteString, List.append_assoc]
    rw [hmem] at hc
    have hlen : ('"' :: (escapeString k.data ++ ('"' :: (':' :: ' ' ::
        (renderJson i2 v ++
          '\n' :: (padChars iEnd ++ '\x7d' :: rest)))))).length ≤ c.length := by
      rw [← hc]
      exact skipWs_length c
    simp only [List.length_cons, List.length_append] at hlen
    have hsb : parseStringBody g (escapeString k.data ++ ('"' :: (':' :: ' ' ::
        (renderJson i2 v ++ '\n' :: (padChars iEnd ++ '\x7d' :: rest))))) =
        some (k.data, ':' :: ' ' ::
          (renderJson i2 v ++ '\n' :: (padChars iEnd ++ '\x7d' :: rest))) := by
      apply parseStringBody_escape
      simp only [List.length_append, List.length_cons]
      omega
    have hpv : parseVal g (' ' ::
        (renderJson i2 v ++ '\n' :: (padChars iEnd ++ '\x7d' :: rest))) =
        some (v, '\n' :: (padChars iEnd ++ '\x7d' :: rest)) := by
      rw [parseVal_congr g _
        (renderJson i2 v ++ '\n' :: (padChars iEnd ++ '\x7d' :: rest))
        (by rw [skipWs_cons_ws _ _ (by decide), skipWs_render_append])]
      exact hv i2 _ g (by simp only [List.length_append, List.length_cons]; omega)
        (numGuard_cons v '\n' _ (by decide))
    have hswd : skipWs ('\n' :: (padChars iEnd ++ '\x7d' :: rest)) =
        '\x7d' :: rest := by
      rw [skipWs_newline_pad]
      exact skipWs_not_ws '\x7d' rest (by decide)
    have hknotin : k ∉ acc.map Prod.fst := by
      rw [List.nodup_append] at hnd
      intro hk
      exact hnd.2.2 hk (List.mem_cons_self k _)
    have hswc : skipWs (':' :: ' ' ::
        (renderJson i2 v ++ '\n' :: (padChars iEnd ++ '\x7d' :: rest))) =
        ':' :: ' ' ::
          (renderJson i2 v ++ '\n' :: (padChars iEnd ++ '\x7d' :: rest)) :=
      skipWs_not_ws ':' _ (by decide)
    simp only [parseObjItems, hc, hsb, hpv, hswd, hswc]
    simp [stringMk_data, objInsert_of_new acc k v hknotin]
  | cons m' ms' ih =>
    intro k v hv hms acc c rest f hc hf hnd
    obtain ⟨g, rfl⟩ : ∃ g, f = g + 1 := ⟨f - 1, by omega⟩
    have htail : renderObjTail i2 (m' :: ms') ++
        '\n' :: (padChars iEnd ++ '\x7d' :: rest) =
        ',' :: '\n' :: (padChars i2 ++ (renderMember i2 m' ++
          (renderObjTail i2 ms' ++
            '\n' :: (padChars iEnd ++ '\x7d' :: rest)))) := by
      simp [renderObjTail, List.append_assoc]
    have hmem : renderMember i2 (k, v) ++ (renderObjTail i2 (m' :: ms') ++
        '\n' :: (padChars iEnd ++ '\x7d' :: rest)) =
        '"' :: (escapeString k.data ++ ('"' :: (':' :: ' ' ::
          (renderJson i2 v ++ ',' :: '\n' :: (padChars i2 ++
            (renderMember i2 m' ++ (renderObjTail i2 ms' ++
              '\n' :: (padChars iEnd ++ '\x7d' :: rest)))))))) := by
      rw [htail]
      simp [renderMember, quoteString, List.append_assoc]
    rw [hmem] at hc
    have hlen : ('"' :: (escapeString k.data ++ ('"' :: (':' :: ' ' ::
        (renderJson i2 v ++ ',' :: '\n' :: (padChars i2 ++
          (renderMember i2 m' ++ (renderObjTail i2 ms' ++
            '\n' :: (padChars iEnd ++ '\x7d' :: rest))))))))).length ≤
        c.length := by
      rw [← hc]
      exact skipWs_length c
    simp only [List.length_cons, List.length_append] at hlen
    have hsb : parseStringBody g (escapeString k.data ++ ('"' :: (':' :: ' ' ::
        (renderJson i2 v ++ ',' :: '\n' :: (padChars i2 ++
          (renderMember i2 m' ++ (renderObjTail i2 ms' ++
            '\n' :: (padChars iEnd ++ '\x7d' :: rest)))))))) =
        some (k.data, ':' :: ' ' ::
          (renderJson i2 v ++ ',' :: '\n' :: (padChars i2 ++
            (renderMember i2 m' ++ (renderObjTail i2 ms' ++
              '\n' :: (padChars iEnd ++ '\x7d' :: rest)))))) := by
      apply parseStringBody_escape
      simp only [List.length_append, List.length_cons]
      omega
    have hpv : parseVal g (' ' ::
        (renderJson i2 v ++ ',' :: '\n' :: (padChars i2 ++
          (renderMember i2 m' ++ (renderObjTail i2 ms' ++
            '\n' :: (padChars iEnd ++ '\x7d' :: rest)))))) =
        some (v, ',' :: '\n' :: (padChars i2 ++
          (renderMember i2 m' ++ (renderObjTail i2 ms' ++
            '\n' :: (padChars iEnd ++ '\x7d' :: rest))))) := by
      rw [parseVal_congr g _
        (renderJson i2 v ++ ',' :: '\n' :: (padChars i2 ++
          (renderMember i2 m' ++ (renderObjTail i2 ms' ++
            '\n' :: (padChars iEnd ++ '\x7d' :: rest)))))
        (by rw [skipWs_cons_ws _ _ (by decide), skipWs_render_append])]
      exact hv i2 _ g (by simp only [List.length_append, List.length_cons]; omega)
        (numGuard_cons v ',' _ (by decide))
    have hswr : skipWs (',' :: '\n' :: (padChars i2 ++
        (renderMember i2 m' ++ (renderObjTail i2 ms' ++
          '\n' :: (padChars iEnd ++ '\x7d' :: rest))))) =
        ',' :: '\n' :: (padChars i2 ++
          (renderMember i2 m' ++ (renderObjTail i2 ms' ++
            '\n' :: (padChars iEnd ++ '\x7d' :: rest)))) :=
      skipWs_not_ws ',' _ (by decide)
    have hknotin : k ∉ acc.map Prod.fst := by
      rw [List.nodup_append] at hnd
      intro hk
      exact hnd.2.2 hk (List.mem_cons_self k _)
    have hmember : (renderJson i2 v).length +
        ((renderMember i2 m').length + ((renderObjTail i2 ms').length +
          ((padChars i2).length + ((padChars iEnd).length +
            rest.length)))) + 8 + (escapeString k.data).length ≤ c.length := by
      omega
    have hrec : parseObjItems g ('\n' :: (padChars i2 ++
        (renderMember i2 m' ++ (renderObjTail i2 ms' ++
          '\n' :: (padChars iEnd ++ '\x7d' :: rest)))))
        (acc ++ [(k, v)]) = some ((acc ++ [(k, v)]) ++ (m'.1, m'.2) :: ms',
          rest) := by
      apply ih m'.1 m'.2 (hms m' (List.mem_cons_self m' ms'))
        (fun w hw => hms w (List.mem_cons_of_mem m' hw))
      · rw [skipWs_newline_pad]
        have : renderMember i2 (m'.1, m'.2) = renderMember i2 m' := rfl
        rw [this]
        exact skipWs_member_append i2 m' _
      · simp only [List.length_cons, List.length_append]
        omega
      · have hk : (acc ++ [(k, v)]).map Prod.fst =
            acc.map Prod.fst ++ [k] := by simp
        rw [hk, List.append_assoc]
        simpa using hnd
    have hswc : skipWs (':' :: ' ' ::
        (renderJson i2 v ++ ',' :: '\n' :: (padChars i2 ++
          (renderMember i2 m' ++ (renderObjTail i2 ms' ++
            '\n' :: (padChars iEnd ++ '\x7d' :: rest)))))) =
        ':' :: ' ' ::
          (renderJson i2 v ++ ',' :: '\n' :: (padChars i2 ++
            (renderMember i2 m' ++ (renderObjTail i2 ms' ++
              '\n' :: (padChars iEnd ++ '\x7d' :: rest))))) :=
      skipWs_not_ws ':' _ (by decide)
    simp only [parseObjItems, hc, hsb, hpv, hswr, hswc]
    simp only [stringMk_data, objInsert_of_new acc k v hknotin]
    simp [hrec]

theorem parseVal_render (v : Json) (hwf : JsonWF v) : AllFinite v → ValOk v := by
  induction hwf with
  | null =>
    intro _ ind rest f hf _
    obtain ⟨g, rfl⟩ : ∃ g, f = g + 1 := ⟨f - 1, by omega⟩
    simp [parseVal, renderJson, skipWs, stripTok, wsChar]
  | bool b =>
    cases b with
    | true =>
      intro _ ind rest f hf _
      obtain ⟨g, rfl⟩ : ∃ g, f = g + 1 := ⟨f - 1, by omega⟩
      simp [parseVal, renderJson, skipWs, stripTok, wsChar]
    | false =>
      intro _ ind rest f hf _
      obtain ⟨g, rfl⟩ : ∃ g, f = g + 1 := ⟨f - 1, by omega⟩
      simp [parseVal, renderJson, skipWs, stripTok, wsChar]
  | num q hq =>
    intro hfin
    cases hfin with
    | num m e =>
      intro ind rest f hf hg
      have hg' : numBoundary rest := by
        simpa [numGuard] using hg
      have hr : renderJson ind (.num (.fin m e)) = renderNum (.fin m e) := by
        simp [renderJson]
      rw [hr] at hf ⊢
      obtain ⟨g, rfl⟩ : ∃ g, f = g + 1 := ⟨f - 1, by omega⟩
      obtain ⟨d, ds, hd, hfacts⟩ := renderNum_fin_head m e
      have hws : wsChar d = false := by
        rcases hfacts with h | h
        · subst h; decide
        · exact (digit_facts d h).1
      have hn1 : d ≠ 'n' := by
        rcases hfacts with h | h
        · subst h; decide
        · exact (digit_facts d h).2.2.2.2.2.1
      have hn2 : d ≠ 't' := by
        rcases hfacts with h | h
        · subst h; decide
        · exact (digit_facts d h).2.2.2.2.2.2.1
      have hn3 : d ≠ 'f' := by
        rcases hfacts with h | h
        · subst h; decide
        · exact (digit_facts d h).2.2.2.2.2.2.2.1
      have hn4 : d ≠ '"' := by
        rcases hfacts with h | h
        · subst h; decide
        · exact (digit_facts d h).2.2.2.2.2.2.2.2.1
      have hn5 : d ≠ '[' := by
        rcases hfacts with h | h
        · subst h; decide
        · exact (digit_facts d h).2.2.2.2.2.2.2.2.2.1
      have hn6 : d ≠ '\x7b' := by
        rcases hfacts with h | h
        · subst h; decide
        · exact (digit_facts d h).2.2.2.2.2.2.2.2.2.2
      have hcons : renderNum (.fin m e) ++ rest = d :: (ds ++ rest) := by
        rw [hd]
        rfl
      rw [hcons]
      simp only [parseVal]
      rw [skipWs_not_ws d _ hws]
      simp only [hn1, hn2, hn3, hn4, hn5, hn6, if_false, ite_false]
      rw [← hcons, parseNumber_renderNum (.fin m e) hq rfl rest hg']
  | str s =>
    intro _ ind rest f hf _
    have hr : renderJson ind (.str s) = quoteString s := by simp [renderJson]
    rw [hr] at hf ⊢
    obtain ⟨g, rfl⟩ : ∃ g, f = g + 1 := ⟨f - 1, by omega⟩
    have hcons : quoteString s ++ rest =
        '"' :: (escapeString s.data ++ '"' :: rest) := by
      rw [quoteString]
      simp [List.append_assoc]
    rw [hcons]
    simp only [parseVal]
    rw [skipWs_not_ws '"' _ (by decide)]
    have hsb : parseStringBody g (escapeString s.data ++ '"' :: rest) =
        some (s.data, rest) := by
      apply parseStringBody_escape
      have hlen := congrArg List.length hcons
      simp only [List.length_append, List.length_cons] at hlen hf ⊢
      omega
    simp [hsb, stringMk_data]
  | arr xs h ih =>
    cases xs with
    | nil =>
      intro _ ind rest f hf _
      obtain ⟨g, rfl⟩ : ∃ g, f = g + 1 := ⟨f - 1, by omega⟩
      simp [parseVal, renderJson, skipWs, wsChar]
    | cons x xs =>
      intro hfin ind rest f hf _
      have hfx : ∀ z ∈ x :: xs, AllFinite z := by
        cases hfin with
        | arr _ hmem => exact hmem
      have hr : renderJson ind (.arr (x :: xs)) =
          '[' :: '\n' :: (padChars (ind + 2) ++ (renderJson (ind + 2) x ++
            (renderArrTail (ind + 2) xs ++ '\n' :: (padChars ind ++ [']'])))) := by
        simp [renderJson]
      rw [hr] at hf ⊢
      obtain ⟨g, rfl⟩ : ∃ g, f = g + 1 := ⟨f - 1, by omega⟩
      have hcons : ('[' :: '\n' :: (padChars (ind + 2) ++
          (renderJson (ind + 2) x ++ (renderArrTail (ind + 2) xs ++
            '\n' :: (padChars ind ++ [']']))))) ++ rest =
          '[' :: ('\n' :: (padChars (ind + 2) ++ (renderJson (ind + 2) x ++
            (renderArrTail (ind + 2) xs ++
              '\n' :: (padChars ind ++ ']' :: rest))))) := by
        simp [List.append_assoc]
      rw [hcons] at hf ⊢
      simp only [parseVal]
      rw [skipWs_not_ws '[' _ (by decide)]
      have hsw : skipWs ('\n' :: (padChars (ind + 2) ++
          (renderJson (ind + 2) x ++ (renderArrTail (ind + 2) xs ++
            '\n' :: (padChars ind ++ ']' :: rest))))) =
          renderJson (ind + 2) x ++ (renderArrTail (ind + 2) xs ++
            '\n' :: (padChars ind ++ ']' :: rest)) := by
        rw [skipWs_newline_pad, skipWs_render_append]
      obtain ⟨hd, tl, he, hws, hne1, hne2⟩ := renderJson_head (ind + 2) x
      have hswc : skipWs ('\n' :: (padChars (ind + 2) ++
          (renderJson (ind + 2) x ++ (renderArrTail (ind + 2) xs ++
            '\n' :: (padChars ind ++ ']' :: rest))))) =
          hd :: (tl ++ (renderArrTail (ind + 2) xs ++
            '\n' :: (padChars ind ++ ']' :: rest))) := by
        rw [hsw, he]
        rfl
      have harr : parseArrItems g ('\n' :: (padChars (ind + 2) ++
          (renderJson (ind + 2) x ++ (renderArrTail (ind + 2) xs ++
            '\n' :: (padChars ind ++ ']' :: rest))))) [] =
          some ([] ++ x :: xs, rest) := by
        apply parseArrItems_render (ind + 2) ind xs x
          (ih x (List.mem_cons_self x xs) (hfx x (List.mem_cons_self x xs)))
          (fun z hz => ih z (List.mem_cons_of_mem x hz)
            (hfx z (List.mem_cons_of_mem x hz)))
        · rw [hsw]
        · simp only [List.length_cons, List.length_append] at hf ⊢
          omega
      simp [hswc, hne1, harr]
  | obj ms hkeys h ih =>
    cases ms with
    | nil =>
      intro _ ind rest f hf _
      obtain ⟨g, rfl⟩ : ∃ g, f = g + 1 := ⟨f - 1, by omega⟩
      simp [parseVal, renderJson, skipWs, wsChar]
    | cons m ms =>
      intro hfin ind rest f hf _
      have hfm : ∀ w ∈ m :: ms, AllFinite w.2 := by
        cases hfin with
        | obj _ hmem => exact hmem
      have hr : renderJson ind (.obj (m :: ms)) =
          '\x7b' :: '\n' :: (padChars (ind + 2) ++ (renderMember (ind + 2) m ++
            (renderObjTail (ind + 2) ms ++
              '\n' :: (padChars ind ++ ['\x7d'])))) := by
        simp [renderJson]
      rw [hr] at hf ⊢
      obtain ⟨g, rfl⟩ : ∃ g, f = g + 1 := ⟨f - 1, by omega⟩
      have hcons : ('\x7b' :: '\n' :: (padChars (ind + 2) ++
          (renderMember (ind + 2) m ++ (renderObjTail (ind + 2) ms ++
            '\n' :: (padChars ind ++ ['\x7d']))))) ++ rest =
          '\x7b' :: ('\n' :: (padChars (ind + 2) ++
            (renderMember (ind + 2) m ++ (renderObjTail (ind + 2) ms ++
              '\n' :: (padChars ind ++ '\x7d' :: rest))))) := by
        simp [List.append_assoc]
      rw [hcons] at hf ⊢
      simp only [parseVal]
      rw [skipWs_not_ws '\x7b' _ (by decide)]
      have hsw : skipWs ('\n' :: (padChars (ind + 2) ++
          (renderMember (ind + 2) m ++ (renderObjTail (ind + 2) ms ++
            '\n' :: (padChars ind ++ '\x7d' :: rest))))) =
          renderMember (ind + 2) m ++ (renderObjTail (ind + 2) ms ++
            '\n' :: (padChars ind ++ '\x7d' :: rest)) := by
        rw [skipWs_newline_pad, skipWs_member_append]
      have hswc : skipWs ('\n' :: (padChars (ind + 2) ++
          (renderMember (ind + 2) m ++ (renderObjTail (ind + 2) ms ++
            '\n' :: (padChars ind ++ '\x7d' :: rest))))) =
          '"' :: ((escapeString m.1.data ++ ['"']) ++
            (':' :: ' ' :: renderJson (ind + 2) m.2 ++
              (renderObjTail (ind + 2) ms ++
                '\n' :: (padChars ind ++ '\x7d' :: rest)))) := by
        rw [hsw, show renderMember (ind + 2) m = quoteString m.1 ++
          ':' :: ' ' :: renderJson (ind + 2) m.2 from by simp [renderMember],
          quoteString]
        simp [List.append_assoc]
      have hobj : parseObjItems g ('\n' :: (padChars (ind + 2) ++
          (renderMember (ind + 2) m ++ (renderObjTail (ind + 2) ms ++
            '\n' :: (padChars ind ++ '\x7d' :: rest))))) [] =
          some ([] ++ (m.1, m.2) :: ms, rest) := by
        apply parseObjItems_render (ind + 2) ind ms m.1 m.2
          (ih m (List.mem_cons_self m ms) (hfm m (List.mem_cons_self m ms)))
          (fun w hw => ih w (List.mem_cons_of_mem m hw)
            (hfm w (List.mem_cons_of_mem m hw)))
        · rw [hsw]
        · simp only [List.length_cons, List.length_append] at hf ⊢
          omega
        · simpa using hkeys
      simp [hswc, hobj]

theorem keyMem_false_not_mem (ms : List (String × Json)) (k : String)
    (h : keyMem ms k = false) : k ∉ ms.map Prod.fst := by
  intro hmem
  obtain ⟨m, hm, hk⟩ := List.mem_map.mp hmem
  have : keyMem ms k = true := by
    rw [keyMem, List.any_eq_true]
    exact ⟨m, hm, by rw [beq_iff_eq]; exact hk⟩
  rw [h] at this
  cases this

theorem objInsert_keys_map (ms : List (String × Json)) (k : String) (v : Json) :
    ((ms.map (fun m => if m.1 = k then (k, v) else m)).map Prod.fst) =
      ms.map Prod.fst := by
  induction ms with
  | nil => rfl
  | cons m ms ih =>
    simp only [List.map_cons, ih, List.cons.injEq, and_true]
    by_cases hm : m.1 = k
    · rw [if_pos hm]
      exact hm.symm
    · rw [if_neg hm]

theorem objInsert_keys_nodup (ms : List (String × Json)) (k : String)
    (v : Json) (h : (ms.map Prod.fst).Nodup) :
    ((objInsert ms k v).map Prod.fst).Nodup := by
  unfold objInsert
  by_cases hk : keyMem ms k = true
  · rw [if_pos hk, objInsert_keys_map]
    exact h
  · rw [Bool.not_eq_true] at hk
    rw [hk]
    simp only [Bool.false_eq_true, if_false, List.map_append]
    rw [List.nodup_append]
    refine ⟨h, by simp, ?_⟩
    intro a ha hb
    simp at hb
    subst hb
    exact keyMem_false_not_mem ms a hk ha

theorem objInsert_values_wf (ms : List (String × Json)) (k : String)
    (v : Json) (hms : ∀ m ∈ ms, JsonWF m.2) (hv : JsonWF v) :
    ∀ m ∈ objInsert ms k v, JsonWF m.2 := by
  unfold objInsert
  by_cases hk : keyMem ms k = true
  · rw [if_pos hk]
    intro m hm
    obtain ⟨m₀, hm₀, he⟩ := List.mem_map.mp hm
    by_cases hm₁ : m₀.1 = k
    · rw [if_pos hm₁] at he
      rw [← he]
      exact hv
    · rw [if_neg hm₁] at he
      rw [← he]
      exact hms m₀ hm₀
  · rw [Bool.not_eq_true] at hk
    rw [hk]
    simp only [Bool.false_eq_true, if_false]
    intro m hm
    rw [List.mem_append] at hm
    cases hm with
    | inl h => exact hms m h
    | inr h =>
      rw [List.mem_singleton] at h
      subst h
      exact hv

theorem parse_wf_all : ∀ f : Nat,
    (∀ c v rest, parseVal f c = some (v, rest) → JsonWF v) ∧
    (∀ c acc xs rest, (∀ x ∈ acc, JsonWF x) →
      parseArrItems f c acc = some (xs, rest) → ∀ x ∈ xs, JsonWF x) ∧
    (∀ c acc ms rest, (∀ m ∈ acc, JsonWF m.2) → (acc.map Prod.fst).Nodup →
      parseObjItems f c acc = some (ms, rest) →
      (∀ m ∈ ms, JsonWF m.2) ∧ (ms.map Prod.fst).Nodup) := by
  intro f
  induction f with
  | zero =>
    refine ⟨?_, ?_, ?_⟩
    · intro c v rest h
      simp [parseVal] at h
    · intro c acc xs rest _ h
      simp [parseArrItems] at h
    · intro c acc ms rest _ _ h
      simp [parseObjItems] at h
  | succ f ih =>
    obtain ⟨ihv, iha, iho⟩ := ih
    refine ⟨?_, ?_, ?_⟩
    · intro c v rest h
      simp only [parseVal] at h
      cases hsw : skipWs c with
      | nil =>
        rw [hsw] at h
        simp at h
      | cons d rest₀ =>
        rw [hsw] at h
        simp only at h
        by_cases h1 : d = 'n'
        · rw [if_pos h1] at h
          cases hst : stripTok ['u', 'l', 'l'] rest₀ with
          | some r =>
            rw [hst] at h
            simp only at h
            cases h
            exact JsonWF.null
          | none =>
            rw [hst] at h
            simp at h
        · rw [if_neg h1] at h
          by_cases h2 : d = 't'
          · rw [if_pos h2] at h
            cases hst : stripTok ['r', 'u', 'e'] rest₀ with
            | some r =>
              rw [hst] at h
              simp only at h
              cases h
              exact JsonWF.bool true
            | none =>
              rw [hst] at h
              simp at h
          · rw [if_neg h2] at h
            by_cases h3 : d = 'f'
            · rw [if_pos h3] at h
              cases hst : stripTok ['a', 'l', 's', 'e'] rest₀ with
              | some r =>
                rw [hst] at h
                simp only at h
                cases h
                exact JsonWF.bool false
              | none =>
                rw [hst] at h
                simp at h
            · rw [if_neg h3] at h
              by_cases h4 : d = '"'
              · rw [if_pos h4] at h
                cases hst : parseStringBody f rest₀ with
                | some sr =>
                  rw [hst] at h
                  obtain ⟨s, r⟩ := sr
                  simp only at h
                  cases h
                  exact JsonWF.str _
                | none =>
                  rw [hst] at h
                  simp at h
              · rw [if_neg h4] at h
                by_cases h5 : d = '['
                · rw [if_pos h5] at h
                  cases hsw₁ : skipWs rest₀ with
                  | nil =>
                    rw [hsw₁] at h
                    simp at h
                  | cons e r₁ =>
                    rw [hsw₁] at h
                    simp only at h
                    by_cases h6 : e = ']'
                    · rw [if_pos h6] at h
                      cases h
                      exact JsonWF.arr [] (by intro x hx; cases hx)
                    · rw [if_neg h6] at h
                      cases hai : parseArrItems f rest₀ [] with
                      | some xr =>
                        rw [hai] at h
                        obtain ⟨xs, r⟩ := xr
                        simp only at h
                        cases h
                        exact JsonWF.arr xs
                          (iha rest₀ [] xs _ (by intro x hx; cases hx) hai)
                      | none =>
                        rw [hai] at h
                        simp at h
                · rw [if_neg h5] at h
                  by_cases h7 : d = '\x7b'
                  · rw [if_pos h7] at h
                    cases hsw₁ : skipWs rest₀ with
                    | nil =>
                      rw [hsw₁] at h
                      simp at h
                    | cons e r₁ =>
                      rw [hsw₁] at h
                      simp only at h
                      by_cases h8 : e = '\x7d'
                      · rw [if_pos h8] at h
                        cases h
                        exact JsonWF.obj [] (by simp) (by intro m hm; cases hm)
                      · rw [if_neg h8] at h
                        cases hoi : parseObjItems f rest₀ [] with
                        | some mr =>
                          rw [hoi] at h
                          obtain ⟨ms, r⟩ := mr
                          simp only at h
                          cases h
                          have := iho rest₀ [] ms _
                            (by intro m hm; cases hm) (by simp) hoi
                          exact JsonWF.obj ms this.2 this.1
                        | none =>
                          rw [hoi] at h
                          simp at h
                  · rw [if_neg h7] at h
                    cases hpn : parseNumber (d :: rest₀) with
                    | some nr =>
                      rw [hpn] at h
                      obtain ⟨n, r⟩ := nr
                      simp only at h
                      cases h
                      exact JsonWF.num n (parseNumber_canon _ _ _ hpn)
                    | none =>
                      rw [hpn] at h
                      simp at h
    · intro c acc xs rest hacc h
      simp only [parseArrItems] at h
      cases hpv : parseVal f c with
      | some vr =>
        rw [hpv] at h
        obtain ⟨v, r⟩ := vr
        simp only at h
        have hv := ihv c v r hpv
        cases hsw : skipWs r with
        | nil =>
          rw [hsw] at h
          simp at h
        | cons e r₁ =>
          rw [hsw] at h
          simp only at h
          by_cases h1 : e = ','
          · rw [if_pos h1] at h
            exact iha r₁ (acc ++ [v]) xs rest
              (by
                intro x hx
                rw [List.mem_append] at hx
                cases hx with
                | inl hx => exact hacc x hx
                | inr hx =>
                  rw [List.mem_singleton] at hx
                  subst hx
                  exact hv) h
          · rw [if_neg h1] at h
            by_cases h2 : e = ']'
            · rw [if_pos h2] at h
              cases h
              intro x hx
              rw [List.mem_append] at hx
              cases hx with
              | inl hx => exact hacc x hx
              | inr hx =>
                rw [List.mem_singleton] at hx
                subst hx
                exact hv
            · rw [if_neg h2] at h
              simp at h
      | none =>
        rw [hpv] at h
        simp at h
    · intro c acc ms rest hacc hnd h
      simp only [parseObjItems] at h
      cases hsw : skipWs c with
      | nil =>
        rw [hsw] at h
        simp at h
      | cons d rest₀ =>
        rw [hsw] at h
        simp only at h
        by_cases h1 : d = '"'
        · rw [if_pos h1] at h
          cases hsb : parseStringBody f rest₀ with
          | some kr =>
            rw [hsb] at h
            obtain ⟨k, r⟩ := kr
            simp only at h
            cases hsw₁ : skipWs r with
            | nil =>
              rw [hsw₁] at h
              simp at h
            | cons e r₁ =>
              rw [hsw₁] at h
              simp only at h
              by_cases h2 : e = ':'
              · rw [if_pos h2] at h
                cases hpv : parseVal f r₁ with
                | some vr =>
                  rw [hpv] at h
                  obtain ⟨v, r₂⟩ := vr
                  simp only at h
                  have hv := ihv r₁ v r₂ hpv
                  cases hsw₂ : skipWs r₂ with
                  | nil =>
                    rw [hsw₂] at h
                    simp at h
                  | cons e₂ r₃ =>
                    rw [hsw₂] at h
                    simp only at h
                    by_cases h3 : e₂ = ','
                    · rw [if_pos h3] at h
                      exact iho r₃ (objInsert acc (String.mk k) v) ms rest
                        (objInsert_values_wf acc (String.mk k) v hacc hv)
                        (objInsert_keys_nodup acc (String.mk k) v hnd) h
                    · rw [if_neg h3] at h
                      by_cases h4 : e₂ = '\x7d'
                      · rw [if_pos h4] at h
                        cases h
                        exact ⟨objInsert_values_wf acc (String.mk k) v hacc hv,
                          objInsert_keys_nodup acc (String.mk k) v hnd⟩
                      · rw [if_neg h4] at h
                        simp at h
                | none =>
                  rw [hpv] at h
                  simp at h
              · rw [if_neg h2] at h
                simp at h
          | none =>
            rw [hsb] at h
            simp at h
        · rw [if_neg h1] at h
          simp at h

theorem parseJson_stringify2 (j : Json) (hwf : JsonWF j)
    (hfin : AllFinite j) : parseJson (stringify2 j) = some j := by
  have h := parseVal_render j hwf hfin 0 [] (2 * (renderJson 0 j).length + 2)
    (by simp only [List.append_nil]; omega) (numGuard_nil j)
  rw [List.append_nil] at h
  have ht : (stringify2 j).toList = renderJson 0 j := rfl
  unfold parseJson
  rw [ht, h]
  simp [skipWs]

theorem parseJson_wf (s : String) (j : Json) (h : parseJson s = some j) :
    JsonWF j := by
  unfold parseJson at h
  cases hpv : parseVal (2 * s.toList.length + 2) s.toList with
  | some vr =>
    rw [hpv] at h
    obtain ⟨v, rest⟩ := vr
    simp only at h
    by_cases he : (skipWs rest).isEmpty
    · rw [if_pos he] at h
      cases h
      exact (parse_wf_all _).1 _ _ _ hpv
    · rw [if_neg he] at h
      cases h
  | none =>
    rw [hpv] at h
    cases h

theorem scrubList_eq_map (xs : List Json) :
    scrubList xs = xs.map scrubNonFinite := by
  induction xs with
  | nil => simp [scrubList]
  | cons x xs ih => simp [scrubList, ih]

theorem scrubMembers_eq_map (ms : List (String × Json)) :
    scrubMembers ms = ms.map (fun m => (m.1, scrubNonFinite m.2)) := by
  induction ms with
  | nil => simp [scrubMembers]
  | cons m ms ih => simp [scrubMembers, ih]

theorem renderArrTail_scrub (ind : Nat) (xs : List Json)
    (h : ∀ x ∈ xs, ∀ i, renderJson i (scrubNonFinite x) = renderJson i x) :
    renderArrTail ind (scrubList xs) = renderArrTail ind xs := by
  induction xs with
  | nil => simp [scrubList]
  | cons x xs ih =>
    have h1 := h x (List.mem_cons_self x xs) ind
    have h2 : scrubList (x :: xs) = scrubNonFinite x :: scrubList xs := by
      simp [scrubList]
    rw [h2]
    simp only [renderArrTail]
    rw [h1, ih (fun z hz i => h z (List.mem_cons_of_mem x hz) i)]

theorem renderObjTail_scrub (ind : Nat) (ms : List (String × Json))
    (h : ∀ m ∈ ms, ∀ i, renderJson i (scrubNonFinite m.2) = renderJson i m.2) :
    renderObjTail ind (scrubMembers ms) = renderObjTail ind ms := by
  induction ms with
  | nil => simp [scrubMembers]
  | cons m ms ih =>
    have h1 := h m (List.mem_cons_self m ms) ind
    have h2 : scrubMembers (m :: ms) =
        (m.1, scrubNonFinite m.2) :: scrubMembers ms := by
      simp [scrubMembers]
    rw [h2]
    simp only [renderObjTail, renderMember]
    rw [ih (fun w hw i => h w (List.mem_cons_of_mem m hw) i)]
    simp [h1]

theorem renderJson_scrub (j : Json) (hwf : JsonWF j) :
    ∀ ind, renderJson ind (scrubNonFinite j) = renderJson ind j := by
  induction hwf with
  | null => intro ind; simp [scrubNonFinite]
  | bool b => intro ind; simp [scrubNonFinite]
  | num q hq =>
    intro ind
    cases q with
    | fin m e => simp [scrubNonFinite, JNumber.isFinite]
    | inf => simp [scrubNonFinite, JNumber.isFinite, renderJson, renderNum]
    | neginf => simp [scrubNonFinite, JNumber.isFinite, renderJson, renderNum]
  | str s => intro ind; simp [scrubNonFinite]
  | arr xs h ih =>
    intro ind
    cases xs with
    | nil => simp [scrubNonFinite, scrubList]
    | cons x xs =>
      have hox : scrubNonFinite (.arr (x :: xs)) =
          .arr (scrubNonFinite x :: scrubList xs) := by
        simp [scrubNonFinite, scrubList]
      rw [hox]
      simp only [renderJson]
      rw [ih x (List.mem_cons_self x xs) (ind + 2),
        renderArrTail_scrub (ind + 2) xs
          (fun z hz i => ih z (List.mem_cons_of_mem x hz) i)]
  | obj ms hkeys h ih =>
    intro ind
    cases ms with
    | nil => simp [scrubNonFinite, scrubMembers]
    | cons m ms =>
      have hox : scrubNonFinite (.obj (m :: ms)) =
          .obj ((m.1, scrubNonFinite m.2) :: scrubMembers ms) := by
        simp [scrubNonFinite, scrubMembers]
      rw [hox]
      simp only [renderJson, renderMember]
      rw [ih m (List.mem_cons_self m ms) (ind + 2),
        renderObjTail_scrub (ind + 2) ms
          (fun w hw i => ih w (List.mem_cons_of_mem m hw) i)]

theorem scrub_wf (j : Json) (hwf : JsonWF j) : JsonWF (scrubNonFinite j) := by
  induction hwf with
  | null =>
    rw [show scrubNonFinite .null = .null from by simp [scrubNonFinite]]
    exact JsonWF.null
  | bool b =>
    rw [show scrubNonFinite (.bool b) = .bool b from by simp [scrubNonFinite]]
    exact JsonWF.bool b
  | num q hq =>
    cases q with
    | fin m e =>
      rw [show scrubNonFinite (.num (.fin m e)) = .num (.fin m e) from by
        simp [scrubNonFinite, JNumber.isFinite]]
      exact JsonWF.num _ hq
    | inf =>
      rw [show scrubNonFinite (.num .inf) = .null from by
        simp [scrubNonFinite, JNumber.isFinite]]
      exact JsonWF.null
    | neginf =>
      rw [show scrubNonFinite (.num .neginf) = .null from by
        simp [scrubNonFinite, JNumber.isFinite]]
      exact JsonWF.null
  | str s =>
    rw [show scrubNonFinite (.str s) = .str s from by simp [scrubNonFinite]]
    exact JsonWF.str s
  | arr xs h ih =>
    rw [show scrubNonFinite (.arr xs) = .arr (scrubList xs) from by
      simp [scrubNonFinite]]
    refine JsonWF.arr _ ?_
    intro z hz
    rw [scrubList_eq_map] at hz
    obtain ⟨x, hx, rfl⟩ := List.mem_map.mp hz
    exact ih x hx
  | obj ms hkeys h ih =>
    rw [show scrubNonFinite (.obj ms) = .obj (scrubMembers ms) from by
      simp [scrubNonFinite]]
    refine JsonWF.obj _ ?_ ?_
    · rw [scrubMembers_eq_map, List.map_map]
      exact hkeys
    · intro w hw
      rw [scrubMembers_eq_map] at hw
      obtain ⟨m, hm, rfl⟩ := List.mem_map.mp hw
      exact ih m hm

theorem scrub_allFinite (j : Json) (hwf : JsonWF j) :
    AllFinite (scrubNonFinite j) := by
  induction hwf with
  | null =>
    rw [show scrubNonFinite .null = .null from by simp [scrubNonFinite]]
    exact AllFinite.null
  | bool b =>
    rw [show scrubNonFinite (.bool b) = .bool b from by simp [scrubNonFinite]]
    exact AllFinite.bool b
  | num q hq =>
    cases q with
    | fin m e =>
      rw [show scrubNonFinite (.num (.fin m e)) = .num (.fin m e) from by
        simp [scrubNonFinite, JNumber.isFinite]]
      exact AllFinite.num m e
    | inf =>
      rw [show scrubNonFinite (.num .inf) = .null from by
        simp [scrubNonFinite, JNumber.isFinite]]
      exact AllFinite.null
    | neginf =>
      rw [show scrubNonFinite (.num .neginf) = .null from by
        simp [scrubNonFinite, JNumber.isFinite]]
      exact AllFinite.null
  | str s =>
    rw [show scrubNonFinite (.str s) = .str s from by simp [scrubNonFinite]]
    exact AllFinite.str s
  | arr xs h ih =>
    rw [show scrubNonFinite (.arr xs) = .arr (scrubList xs) from by
      simp [scrubNonFinite]]
    refine AllFinite.arr _ ?_
    intro z hz
    rw [scrubList_eq_map] at hz
    obtain ⟨x, hx, rfl⟩ := List.mem_map.mp hz
    exact ih x hx
  | obj ms hkeys h ih =>
    rw [show scrubNonFinite (.obj ms) = .obj (scrubMembers ms) from by
      simp [scrubNonFinite]]
    refine AllFinite.obj _ ?_
    intro w hw
    rw [scrubMembers_eq_map] at hw
    obtain ⟨m, hm, rfl⟩ := List.mem_map.mp hw
    exact ih m hm

theorem parseJson_stringify2_scrub (j : Json) (hwf : JsonWF j) :
    parseJson (stringify2 j) = some (scrubNonFinite j) := by
  have h1 : stringify2 j = stringify2 (scrubNonFinite j) := by
    rw [stringify2, stringify2, renderJson_scrub j hwf 0]
  rw [h1]
  exact parseJson_stringify2 (scrubNonFinite j) (scrub_wf j hwf)
    (scrub_allFinite j hwf)

theorem extractFallback_spec : ∀ f text,
    extractFallback f text = none ∨
    ∃ block j, parseJson (String.mk (trimChars block)) = some j ∧
      extractFallback f text = some (stringify2 j) := by
  intro f
  induction f with
  | zero =>
    intro text
    left
    rfl
  | succ f ih =>
    intro text
    cases hsp : splitAtTag jsonTag text with
    | none =>
      left
      simp [extractFallback, hsp]
    | some afterTag =>
      cases hcf : captureUntilFence (skipWs afterTag) with
      | none =>
        left
        simp [extractFallback, hsp, hcf]
      | some capr =>
        obtain ⟨cap, afterFence⟩ := capr
        cases hpj : parseJson (String.mk (trimChars cap)) with
        | some j =>
          by_cases hl : looksLikeSchema j = true
          · right
            refine ⟨cap, j, hpj, ?_⟩
            simp [extractFallback, hsp, hcf, hpj, hl]
          · have hx : extractFallback (f + 1) text = extractFallback f afterFence := by
              simp [extractFallback, hsp, hcf, hpj, hl]
            rw [hx]
            exact ih afterFence
        | none =>
          have hx : extractFallback (f + 1) text = extractFallback f afterFence := by
            simp [extractFallback, hsp, hcf, hpj]
          rw [hx]
          exact ih afterFence

/-- **C9.** [corrected] `extractSchemaFromText` is total by construction (a
plain function into `Option String`, the catch branch of the source modelled
as the `none` branch of a verified parser), and whenever it returns a
string, that string is the 2-space re-serialisation of the matched block's
parsed value and is itself valid JSON — but it parses back to that value
with every non-finite number replaced by `null`, not always to the value
itself: `JSON.parse` reads an overflowing literal such as `1e999` as
`Infinity`, and `JSON.stringify` writes a non-finite number as `null`, which
falsifies the unconditional round-trip of the original claim. -/
theorem C9_extract_schema_roundtrip (text : String) :
    extractSchemaFromText text = none ∨
    ∃ block j, parseJson (String.mk (trimChars block)) = some j ∧
      extractSchemaFromText text = some (stringify2 j) ∧
      parseJson (stringify2 j) = some (scrubNonFinite j) := by
  have hfb : extractFallback (text.toList.length + 1) text.toList = none ∨
      ∃ block j, parseJson (String.mk (trimChars block)) = some j ∧
        extractFallback (text.toList.length + 1) text.toList =
          some (stringify2 j) ∧
        parseJson (stringify2 j) = some (scrubNonFinite j) := by
    rcases extractFallback_spec (text.toList.length + 1) text.toList with
      h | ⟨cap, j, hpj, he⟩
    · left
      exact h
    · right
      exact ⟨cap, j, hpj, he, parseJson_stringify2_scrub j (parseJson_wf _ _ hpj)⟩
  cases hsp : splitAtTag jsonSchemaTag text.toList with
  | none =>
    have hx : extractSchemaFromText text =
        extractFallback (text.toList.length + 1) text.toList := by
      simp only [extractSchemaFromText, hsp]
    rw [hx]
    exact hfb
  | some afterTag =>
    cases hcf : captureUntilFence (skipWs afterTag) with
    | none =>
      have hx : extractSchemaFromText text =
          extractFallback (text.toList.length + 1) text.toList := by
        simp only [extractSchemaFromText, hsp, hcf]
      rw [hx]
      exact hfb
    | some capr =>
      obtain ⟨cap, rest⟩ := capr
      by_cases hne : cap = []
      · subst hne
        have hx : extractSchemaFromText text =
            extractFallback (text.toList.length + 1) text.toList := by
          simp only [extractSchemaFromText, hsp, hcf]
          rw [if_neg (by simp : ¬(([] : List Char) ≠ []))]
        rw [hx]
        exact hfb
      · cases hpj : parseJson (String.mk (trimChars cap)) with
        | some j =>
          right
          refine ⟨cap, j, hpj, ?_,
            parseJson_stringify2_scrub j (parseJson_wf _ _ hpj)⟩
          simp only [extractSchemaFromText, hsp, hcf]
          rw [if_pos hne]
          simp only [hpj]
        | none =>
          left
          simp only [extractSchemaFromText, hsp, hcf]
          rw [if_pos hne]
          simp only [hpj]

/-- The round-trip as the spec words it — the returned string's parsed value
equals the parsed content of the matched block — is false for the program:
the `json:schema` block `1e999` parses to `Infinity`, the function returns
`JSON.stringify(Infinity, null, 2)`, which is the string `null`, and that
string parses back to `null`, not to the block's parsed value. -/
theorem C9_roundtrip_counterexample :
    parseJson (String.mk (trimChars cexBlock)) = some (.num .inf) ∧
    extractSchemaFromText cexText = some (stringify2 (.num .inf)) ∧
    parseJson (stringify2 (.num .inf)) ≠ some (.num .inf) := by
  have hov : overflowAt 1 999 = true := by
    rw [overflowAt, if_pos (by norm_num : (0 : Int) ≤ 999)]
    simp only [decide_eq_true_eq]
    have h1 : (1 : Int).natAbs = 1 := rfl
    have h2 : ((999 : Int)).toNat = 999 := rfl
    rw [h1, h2, one_mul]
    calc (2 : Nat) ^ 1024 ≤ 2 ^ 2997 :=
          Nat.pow_le_pow_right (by norm_num) (by norm_num)
    _ = (2 ^ 3) ^ 999 := by rw [← pow_mul]
    _ ≤ 10 ^ 999 := Nat.pow_le_pow_left (by norm_num) _
  have hnn : normNum 1 999 = JNumber.inf := by
    rw [normNum, if_neg (by norm_num : (1 : Int) ≠ 0)]
    have h6 : stripZeros (1 : Int).natAbs 1 999 = (1, 999) :=
      stripZeros_no_dvd _ _ _ (by norm_num)
    simp only [h6]
    rw [if_pos hov, if_pos (by norm_num : (0 : Int) < 1)]
  have hpn : parseNumber ['1', 'e', '9', '9', '9'] =
      some (JNumber.inf, []) := by
    have h1 : parseSignSplit ['1', 'e', '9', '9', '9'] =
        (false, ['1', 'e', '9', '9', '9']) := rfl
    have h2 : parseNatPart ['1', 'e', '9', '9', '9'] =
        some (1, ['e', '9', '9', '9']) := rfl
    have h3 : parseFracPart ['e', '9', '9', '9'] =
        some ([], ['e', '9', '9', '9']) := rfl
    have h4 : parseExpPart ['e', '9', '9', '9'] = some (999, []) := rfl
    rw [parseNumber, h1]
    simp only
    rw [h2]
    simp only
    rw [h3]
    simp only
    rw [h4]
    simp only [List.length_nil, pow_zero, mul_one, Nat.cast_zero, sub_zero,
      Bool.false_eq_true, if_false]
    have h5 : ((1 + digitsToNat 0 ([] : List Char) : Nat) : Int) = 1 := rfl
    rw [h5, hnn]
  have hpv : parseVal 12 ['1', 'e', '9', '9', '9'] =
      some (.num JNumber.inf, []) := by
    rw [show (12 : Nat) = 11 + 1 from rfl]
    simp only [parseVal]
    rw [show skipWs ['1', 'e', '9', '9', '9'] = '1' :: ['e', '9', '9', '9']
      from rfl]
    simp only [show ('1' = 'n') = False from by simp,
      show ('1' = 't') = False from by simp,
      show ('1' = 'f') = False from by simp,
      show ('1' = '"') = False from by simp,
      show ('1' = '[') = False from by simp,
      show ('1' = '\x7b') = False from by simp, if_false]
    rw [hpn]
  have hcex : parseJson (String.mk (trimChars cexBlock)) =
      some (.num JNumber.inf) := by
    have ht : (String.mk (trimChars cexBlock)).toList =
        ['1', 'e', '9', '9', '9'] := rfl
    rw [parseJson, ht]
    rw [show (2 * (['1', 'e', '9', '9', '9'] : List Char).length + 2 : Nat)
      = 12 from rfl]
    rw [hpv]
    simp [skipWs]
  have hs : stringify2 (.num .inf) = "null" := by
    have h1 : renderJson 0 (.num .inf) = ['n', 'u', 'l', 'l'] := by
      simp [renderJson, renderNum]
    rw [stringify2, h1]
  refine ⟨hcex, ?_, ?_⟩
  · have hsp : splitAtTag jsonSchemaTag cexText.toList =
        some ('\n' :: (cexBlock ++ fenceChars)) := rfl
    have hcf : captureUntilFence (skipWs ('\n' :: (cexBlock ++ fenceChars))) =
        some (cexBlock, []) := rfl
    simp only [extractSchemaFromText, hsp, hcf]
    rw [if_pos (show cexBlock ≠ [] from by decide)]
    simp only [hcex]
  · rw [hs]
    intro hcontr
    rw [show parseJson "null" = some Json.null from rfl] at hcontr
    simp at hcontr
